import Mathlib

/-!
# Chunk walking and data transfer of libnczarr (`libnczarr/zwalk.c`)

A shallow embedding of the transfer engine of `zwalk.c`: the per-run copy
`transfern`, the fill synthesizer `NCZ_fillchunk`, the whole-variable test
`iswholevar`, the linearization `NCZ_computelinearoffset`, the projection set-up
`NCZ_projectslices`, the walker `NCZ_walk` and the three entry points
`NCZ_transferscalar`, `NCZ_transfer` and `NCZ_transferslice`.

Conventions of the embedding.

* An object in memory (the caller's buffer, a chunk, the fill template) is a
  `Buffer`: the byte found at each offset from the start of the object.  A C
  pointer into an object is the object together with a byte offset.  The chunk
  buffers, the caller's memory and the fill template are distinct objects.
* A pointer to an array of `size64_t` or of structures that the caller hands in
  is a function from the index to the entry; an array that the code builds
  itself on its stack and hands to a collaborator is the list of the entries it
  has written.
* `size64_t` arithmetic on dimension lengths and indices is written with an
  explicit `% 2 ^ 64`.  Byte offsets into an object (`s*typesize`, `typesize*count`)
  are positions inside that object and are written without the reduction.
* Code of the library that is not part of `zwalk.c` (the odometer, the chunk
  cache, the slice projector, the type registry) is a field of `Env`, so that what
  is proved of `zwalk.c` holds whatever that code does.  Where a property depends
  on what such code does (the byte swap, the fill template, the counting of an
  odometer, the chunk ranges of a slice), it is defined from the spec, under a
  comment that starts with "Modelled from the spec:".
-/

namespace NCZ

/-! ## Status codes -/

/-- The status `NC_NOERR` of netcdf.h: the value every `if((stat = ...)) goto done`
of zwalk.c tests against. -/
def NC_NOERR : Int := 0

/-- The status `NC_ENOTFOUND` of netcdf.h. -/
def NC_ENOTFOUND : Int := -90

/-- The status `NC_ENOMEM` of netcdf.h. -/
def NC_ENOMEM : Int := -61

/-! ## Memory -/

/-- An object in memory: the byte at each offset from its start. -/
abbrev Buffer := Nat → UInt8

/-- The buffer whose first bytes are those of `l`; every other byte is zero. -/
def Buffer.ofList (l : List UInt8) : Buffer := fun a => l.getD a 0

/-- The C library call `memcpy(dst + d, src + s, n)` between two distinct objects. -/
def memcpy (dst : Buffer) (d : Nat) (src : Buffer) (s n : Nat) : Buffer :=
  fun a => if d ≤ a ∧ a < d + n then src (s + (a - d)) else dst a

/-- The C library call `memset(dst + d, c, n)`. -/
def memset (dst : Buffer) (d : Nat) (c : UInt8) (n : Nat) : Buffer :=
  fun a => if d ≤ a ∧ a < d + n then c else dst a

/-- Modelled from the spec: `NCZ_swapatomicdata(datalen, data, typesize)` is not under
src/ (only its two calls in `transfern` are).  The spec calls it the endianness swap,
"byte-order conversion" of the elements "in place": each `typesize`-byte element of the
`datalen` bytes at `data + p` has its bytes reversed. -/
def NCZ_swapatomicdata (datalen : Nat) (data : Buffer) (p : Nat) (typesize : Nat) : Buffer :=
  fun a =>
    if p ≤ a ∧ a < p + datalen then
      data (p + ((a - p) / typesize * typesize + (typesize - 1 - (a - p) % typesize)))
    else data a

/-! ## Data model -/

/-- The structure `NCZSlice`: the four fields zwalk.c assigns in `NCZ_transferslice`. -/
structure NCZSlice where
  start : Nat
  stop : Nat
  stride : Nat
  len : Nat
  deriving DecidableEq, Repr, Inhabited

/-- The structure `NCZChunkRange`. -/
structure NCZChunkRange where
  start : Nat
  stop : Nat
  deriving DecidableEq, Repr, Inhabited

/-- The structure `NCZProjection`, restricted to the fields zwalk.c reads. -/
structure NCZProjection where
  iocount : Nat
  chunkslice : NCZSlice
  memslice : NCZSlice
  deriving DecidableEq, Repr, Inhabited

/-- The structure `NCZSliceProjections`, restricted to the fields zwalk.c reads;
`projections` is the pointer to the vector of `count` projections. -/
structure NCZSliceProjections where
  range : NCZChunkRange
  count : Nat
  projections : Nat → NCZProjection

/-- The value fields of `struct Common` that zwalk.c reads or writes.  The objects
its pointer fields lead to (`memory`, `cache`, `reader.source`) are part of `State`;
`reader.read` is part of `Env`.  `reading` and `swap` are C `int`s only ever tested
against zero; `fillvalue` is `none` for the NULL pointer. -/
structure Common where
  reading : Bool
  rank : Nat
  scalar : Nat
  typesize : Nat
  swap : Bool
  chunkcount : Nat
  fillvalue : Option Buffer
  dimlens : Nat → Nat
  chunklens : Nat → Nat
  memshape : Nat → Nat
  shape : Nat → Nat
  allprojections : Option (Nat → NCZSliceProjections)

/-! ## The per-run transfer `transfern` -/

/-- The element loop of the read branch of `transfern`:
`for(m=0,s=0;s<count;s+=slpstride,m+=memstride) memcpy(memptr+m*typesize,slpptr+s*typesize,typesize)`.
The first argument bounds the number of iterations; `none` is a loop that has not
ended within the bound. -/
def transfern_readloop (typesize count slpstride memstride : Nat) (chunkdata : Buffer)
    (slpptr memptr : Nat) : Nat → Nat → Nat → Buffer → Option Buffer
  | 0, s, _, memory => if s < count then none else some memory
  | fuel + 1, s, m, memory =>
    if s < count then
      transfern_readloop typesize count slpstride memstride chunkdata slpptr memptr fuel
        (s + slpstride) (m + memstride)
        (memcpy memory (memptr + m * typesize) chunkdata (slpptr + s * typesize) typesize)
    else some memory

/-- The element loop of the write branch of `transfern`:
`for(m=0,s=0;s<count;s+=slpstride,m+=memstride) memcpy(slpptr+s*typesize,memptr+m*typesize,typesize)`. -/
def transfern_writeloop (typesize count slpstride memstride : Nat) (memory : Buffer)
    (slpptr memptr : Nat) : Nat → Nat → Nat → Buffer → Option Buffer
  | 0, s, _, chunkdata => if s < count then none else some chunkdata
  | fuel + 1, s, m, chunkdata =>
    if s < count then
      transfern_writeloop typesize count slpstride memstride memory slpptr memptr fuel
        (s + slpstride) (m + memstride)
        (memcpy chunkdata (slpptr + s * typesize) memory (memptr + m * typesize) typesize)
    else some chunkdata

/-- The function `transfern` of zwalk.c.  `chunkdata` with `slpptr` is the chunk-side
pointer, `memory` with `memptr` the memory-side pointer; the result is the pair
(chunk, memory) after the call, which always returns `NC_NOERR`.  The element loops
advance `s` by `slpstride`, so `count` iterations are enough for them to end whenever
`slpstride` is positive; the result is `none` exactly when the loop does not end
(`slpstride = 0` with a positive `count`). -/
def transfern (common : Common) (chunkdata : Buffer) (slpptr : Nat) (memory : Buffer)
    (memptr : Nat) (count slpstride memstride : Nat) : Option (Buffer × Buffer) :=
  let typesize := common.typesize
  let len := typesize * count
  if common.reading then
    let copied : Option Buffer :=
      if slpstride = 1 ∧ memstride = 1 then
        some (memcpy memory memptr chunkdata slpptr len)
      else
        transfern_readloop typesize count slpstride memstride chunkdata slpptr memptr
          count 0 0 memory
    copied.map fun m =>
      (chunkdata, if common.swap then NCZ_swapatomicdata len m memptr typesize else m)
  else
    let copied : Option Buffer :=
      if slpstride = 1 then
        some (memcpy chunkdata slpptr memory memptr len)
      else
        transfern_writeloop typesize count slpstride memstride memory slpptr memptr
          count 0 0 chunkdata
    copied.map fun c =>
      (if common.swap then NCZ_swapatomicdata len c slpptr typesize else c, memory)

/-! ## Linear offsets -/

/-- The function `NCZ_computelinearoffset` of zwalk.c: the loop
`offset *= dimlens[i]; offset += indices[i];` for `i` from 0 below `R`, each step
in `size64_t`. -/
def NCZ_computelinearoffset (R : Nat) (indices dimlens : Nat → Nat) : Nat :=
  (List.range R).foldl
    (fun offset i => ((offset * dimlens i) % 2 ^ 64 + indices i) % 2 ^ 64) 0

/-- The row-major linearization of an index vector as the spec words it: the sum over
`i < R` of `indices[i]` times the product of `dimlens[j]` for `i < j < R`. -/
def rowMajor (R : Nat) (indices dimlens : Nat → Nat) : Nat :=
  ∑ i in Finset.range R, indices i * ∏ j in Finset.Ico (i + 1) R, dimlens j

/-! ## State, collaborators and outcomes -/

/-- The structure `NCZChunkCache`, restricted to the fields zwalk.c reads or writes:
the byte size of one chunk and the fill template (`none` for the NULL pointer). -/
structure NCZChunkCache where
  chunksize : Nat
  fillchunk : Option Buffer

/-- What a run of the transfer code does, in order.  The log is a ghost field of the
state: nothing in the code reads it. -/
inductive Event where
  /-- A call of `common->reader.read` with these chunk indices. -/
  | read (chunkindices : List Nat)
  /-- A call of `NCZ_fillchunk` on the chunk at this address. -/
  | fill (chunkdata : Nat)
  /-- A call of `transfern` on the chunk at `chunkdata`, with the byte offsets of
  `slpptr` and `memptr` and the three counts. -/
  | transfer (chunkdata slpptr memptr count slpstride memstride : Nat)
  /-- The `memcpy` of `NCZ_transferscalar` over `nbytes` bytes. -/
  | copy (chunkdata nbytes : Nat)
  /-- A call `nczodom_next(memodom)` in `NCZ_walk`. -/
  | memnext
  /-- A call `nczodom_next(slpodom)` in `NCZ_walk`. -/
  | slpnext
  /-- A call `nczodom_next(chunkodom)` in `NCZ_transfer`. -/
  | chunknext
  deriving DecidableEq, Repr

/-- The objects the transfer code works on: the caller's buffer `common->memory`, the
chunk buffers (by address), the cache `common->cache`, the object behind
`common->reader.source`, and the log. -/
structure State (σ : Type) where
  memory : Buffer
  chunks : Nat → Buffer
  cache : NCZChunkCache
  source : σ
  trace : List Event

/-- What a call of `common->reader.read(source, chunkindices, &chunkdata)` leaves: its
status, the value of `chunkdata`, and the objects the reader can reach. -/
structure ReadResult (σ : Type) where
  stat : Int
  chunkdata : Nat
  source : σ
  cache : NCZChunkCache
  chunks : Nat → Buffer

/-- The code zwalk.c calls and does not define.
* `read` is `common->reader.read`: it gets the source, the cache, the chunk buffers, the
  chunk indices and the current value of `chunkdata`; it cannot reach `common->memory`.
* The `nczodom_*` fields are the odometer of zodom.c over its state `Odom`;
  `nczodom_new` is `none` when it returns NULL.
* `NCZ_compute_chunk_ranges` and `NCZ_compute_all_slice_projections` are the chunk-range
  calculator and the slice projector of zchunking.c: a status and the vector they fill.
* `ceildiv` is the macro of that name.
* `calloc_projections` and `malloc_fillchunk` tell whether the allocation in
  `NCZ_projectslices` and the one in `NCZ_create_fill_chunk` succeed.
* `NC4_inq_atomic_type` is the type registry (status and byte width of a type code);
  `ncz_get_fill_value` the fill value provider (status and fill value bytes).
* `stack_common` is what the storage of the local variable `common` of
  `NCZ_transferslice` holds when the function is entered, before its `memset`. -/
structure Env (σ Odom : Type) where
  read : σ → NCZChunkCache → (Nat → Buffer) → List Nat → Nat → ReadResult σ
  nczodom_new : Nat → List Nat → List Nat → List Nat → List Nat → Option Odom
  nczodom_fromslices : Nat → List NCZSlice → Odom
  nczodom_more : Odom → Bool
  nczodom_next : Odom → Odom
  nczodom_indices : Odom → List Nat
  nczodom_offset : Odom → Nat
  nczodom_avail : Odom → Nat
  nczodom_laststride : Odom → Nat
  nczodom_lastlen : Odom → Nat
  NCZ_compute_chunk_ranges : Nat → (Nat → NCZSlice) → (Nat → Nat) → Int × (Nat → NCZChunkRange)
  NCZ_compute_all_slice_projections :
    Common → (Nat → NCZSlice) → (Nat → NCZChunkRange) → Int × (Nat → NCZSliceProjections)
  ceildiv : Nat → Nat → Nat
  calloc_projections : Bool
  malloc_fillchunk : Bool
  NC4_inq_atomic_type : Int → Int × Nat
  ncz_get_fill_value : Int × Option Buffer
  stack_common : Common

/-- How a call ends: it returns a value, it stops the process (a failed `assert`, a NULL
dereference, the release of a pointer that no allocation returned), or it runs a loop
that has not ended within the iteration bound. -/
inductive Run (α : Type) where
  | ret (a : α)
  | abort
  | diverge

/-- The state after the reader has run: its three objects replaced, the call logged. -/
def State.afterRead {σ : Type} (st : State σ) (chunkindices : List Nat) (r : ReadResult σ) :
    State σ :=
  { st with source := r.source, cache := r.cache, chunks := r.chunks,
            trace := st.trace ++ [Event.read chunkindices] }

/-- The state with the chunk buffer at address `p` replaced. -/
def State.setChunk {σ : Type} (st : State σ) (p : Nat) (b : Buffer) : State σ :=
  { st with chunks := fun q => if q = p then b else st.chunks q }

/-- The state with one more event in the log. -/
def State.log {σ : Type} (st : State σ) (e : Event) : State σ :=
  { st with trace := st.trace ++ [e] }

/-- Unsigned 64-bit subtraction `a - b`. -/
def sub64 (a b : Nat) : Nat := (a + (2 ^ 64 - b % 2 ^ 64)) % 2 ^ 64

/-! ## The fill synthesizer -/

/-- Modelled from the spec: `NCZ_create_fill_chunk(chunksize, typesize, fill, &fillchunk)`
is not under src/.  The spec has it "build a template chunk-sized buffer with the fill
value replicated across all elements".  `alloc` tells whether its allocation succeeds;
when it does not the status is `NC_ENOMEM` and the template pointer stays NULL. -/
def NCZ_create_fill_chunk (alloc : Bool) (chunksize typesize : Nat) (fill : Buffer) :
    Int × Option Buffer :=
  if alloc then
    (NC_NOERR, some (fun a => if a < chunksize then fill (a % typesize) else 0))
  else (NC_ENOMEM, none)

/-- The function `NCZ_fillchunk` of zwalk.c on the chunk at address `chunkdata`: the
status and the state it leaves.  A status 0 of `NCZ_create_fill_chunk` with a NULL
template would make the `memcpy` read through NULL; the chunk is then left as it is. -/
def NCZ_fillchunk {σ : Type} (malloc_fillchunk : Bool) (chunkdata : Nat) (common : Common)
    (st0 : State σ) : Int × State σ :=
  let st := st0.log (Event.fill chunkdata)
  match common.fillvalue with
  | none =>
    (NC_NOERR,
      st.setChunk chunkdata
        (memset (st.chunks chunkdata) 0 0 (common.chunkcount * common.typesize)))
  | some fillvalue =>
    let created : Int × NCZChunkCache :=
      match st.cache.fillchunk with
      | none =>
        let r := NCZ_create_fill_chunk malloc_fillchunk st.cache.chunksize common.typesize
          fillvalue
        (r.1, { st.cache with fillchunk := r.2 })
      | some _ => (NC_NOERR, st.cache)
    let st1 : State σ := { st with cache := created.2 }
    if created.1 ≠ 0 then (created.1, st1)
    else
      match st1.cache.fillchunk with
      | none => (NC_NOERR, st1)
      | some fillchunk =>
        (NC_NOERR,
          st1.setChunk chunkdata
            (memcpy (st1.chunks chunkdata) 0 fillchunk 0 st1.cache.chunksize))

/-! ## Utilities of zwalk.c -/

/-- The function `rangecount` of zwalk.c: `range.stop - range.start` in `size64_t`,
returned as a C `int` (reduced to 32 bits, two's complement). -/
def rangecount (range : NCZChunkRange) : Int :=
  Int.bmod (sub64 range.stop range.start) (2 ^ 32)

/-- The function `iswholevar` of zwalk.c: two loops over `i < common->rank`, each
returning 0 at the first dimension that fails its test. -/
def iswholevar (common : Common) (slices : Nat → NCZSlice) : Int :=
  if (List.range common.rank).any (fun i =>
      decide ((slices i).start ≠ 0) || decide ((slices i).stop ≠ common.dimlens i)
        || decide ((slices i).stride ≠ 1)) then 0
  else if (List.range common.rank).any (fun i =>
      decide (common.dimlens i ≠ common.chunklens i)) then 0
  else 1

/-! ## Projection set-up -/

/-- The inner loop of the "Compute the shape vector" part of `NCZ_projectslices`:
`iocount += proj->iocount` over the `count` projections of one dimension, in
`size64_t`. -/
def shapeOf (slp : NCZSliceProjections) : Nat :=
  (List.range slp.count).foldl (fun iocount j => (iocount + (slp.projections j).iocount) % 2 ^ 64) 0

/-- The function `NCZ_projectslices` of zwalk.c: the status, `common` as it leaves it
and the odometer stored through `odomp`.  The `assert` compares the `int` of
`rangecount` with the `size_t` count, so the `int` is converted to 64 bits unsigned. -/
def NCZ_projectslices {σ Odom : Type} (env : Env σ Odom) (dimlens chunklens : Nat → Nat)
    (slices : Nat → NCZSlice) (common0 : Common) : Run (Int × Common × Option Odom) :=
  if ¬ env.calloc_projections then .ret (NC_ENOMEM, common0, none)
  else
    let common1 : Common := { common0 with dimlens := dimlens, chunklens := chunklens }
    let rg := env.NCZ_compute_chunk_ranges common1.rank slices common1.chunklens
    if rg.1 ≠ 0 then .ret (rg.1, common1, none)
    else
      let ranges := rg.2
      let pj := env.NCZ_compute_all_slice_projections common1 slices ranges
      if pj.1 ≠ 0 then .ret (pj.1, common1, none)
      else
        let allprojections := pj.2
        if (List.range common1.rank).any (fun r =>
            decide (rangecount (ranges r) % 2 ^ 64 ≠ ((allprojections r).count : Int))) then
          .abort
        else
          let common2 : Common :=
            { common1 with
              shape := fun r => if r < common1.rank then shapeOf (allprojections r)
                                else common1.shape r,
              allprojections := some allprojections }
          let dims := List.range common2.rank
          match env.nczodom_new common2.rank
              (dims.map fun r => (ranges r).start) (dims.map fun r => (ranges r).stop)
              (dims.map fun _ => 1)
              (dims.map fun r => env.ceildiv (common2.dimlens r) (common2.chunklens r)) with
          | none => .ret (NC_ENOMEM, common2, none)
          | some odom => .ret (NC_NOERR, common2, some odom)

/-! ## The walker -/

/-- The function `NCZ_walk` of zwalk.c on the chunk at address `chunkdata`; `projv` and
`chunkodom` are only printed and are left out.  The first argument bounds the number of
iterations of its loop.  `transfern` always returns `NC_NOERR`, so the `goto done` after
it is never taken. -/
def NCZ_walk {σ Odom : Type} (env : Env σ Odom) (common : Common) (chunkdata : Nat) :
    Nat → Odom → Odom → State σ → Run (Int × State σ)
  | 0, slpodom, _, st => if env.nczodom_more slpodom then .diverge else .ret (NC_NOERR, st)
  | fuel + 1, slpodom, memodom, st =>
    if env.nczodom_more slpodom then
      let slpoffset := env.nczodom_offset slpodom
      let memoffset := env.nczodom_offset memodom
      let memptr0 := memoffset * common.typesize
      let slpptr0 := slpoffset * common.typesize
      let count := env.nczodom_avail slpodom
      let slpstride := env.nczodom_laststride slpodom
      let memstride := env.nczodom_lastlen memodom
      match transfern common (st.chunks chunkdata) slpptr0 st.memory memptr0
          count slpstride memstride with
      | none => .diverge
      | some (chunk, memory) =>
        let st1 : State σ :=
          { (st.setChunk chunkdata chunk) with
            memory := memory,
            trace := st.trace ++
              [Event.transfer chunkdata slpptr0 memptr0 count slpstride memstride,
               Event.memnext, Event.slpnext] }
        NCZ_walk env common chunkdata fuel (env.nczodom_next slpodom)
          (env.nczodom_next memodom) st1
    else .ret (NC_NOERR, st)

/-! ## Scalar variables -/

/-- The two `memcpy` calls that end `NCZ_transferscalar`: `chunkcount*typesize` bytes
between offset 0 of the chunk and offset 0 of the memory, by direction. -/
def NCZ_transferscalar_copy {σ : Type} (common : Common) (chunkdata : Nat) (st : State σ) :
    State σ :=
  let n := common.chunkcount * common.typesize
  let st1 := st.log (Event.copy chunkdata n)
  if common.reading then
    { st1 with memory := memcpy st.memory 0 (st.chunks chunkdata) 0 n }
  else
    st1.setChunk chunkdata (memcpy (st.chunks chunkdata) 0 st.memory 0 n)

/-- The part of `NCZ_transferscalar` from its `switch` on: `stat` and `chunkdata` are
what the reader has just returned. -/
def NCZ_transferscalar_after {σ : Type} (malloc_fillchunk : Bool) (common : Common)
    (stat : Int) (chunkdata : Nat) (st : State σ) : Int × State σ :=
  if stat = NC_ENOTFOUND then
    let f := NCZ_fillchunk malloc_fillchunk chunkdata common st
    if f.1 ≠ 0 then f else (f.1, NCZ_transferscalar_copy common chunkdata f.2)
  else if stat = NC_NOERR then (stat, NCZ_transferscalar_copy common chunkdata st)
  else (stat, st)

/-- The function `NCZ_transferscalar` of zwalk.c: `chunkindices[0] = 0`, the reader's
call (with `chunkdata` still NULL), then the `switch` and the copy. -/
def NCZ_transferscalar {σ Odom : Type} (env : Env σ Odom) (common : Common) (st : State σ) :
    Int × State σ :=
  let r := env.read st.source st.cache st.chunks [0] 0
  NCZ_transferscalar_after env.malloc_fillchunk common r.stat r.chunkdata (st.afterRead [0] r)

/-! ## The transfer proper -/

/-- The call `transfern(common,slpptr,memptr,common->chunkcount,1,1,chunkdata)` of the
whole-variable branch of `NCZ_transfer`, both pointers at offset 0; its status is
dropped and the branch ends with the status `stat` it had. -/
def NCZ_transfer_wholevar_copy {σ : Type} (common : Common) (stat : Int) (chunkdata : Nat)
    (st : State σ) : Run (Int × State σ) :=
  match transfern common (st.chunks chunkdata) 0 st.memory 0 common.chunkcount 1 1 with
  | none => .diverge
  | some (chunk, memory) =>
    .ret (stat,
      { (st.setChunk chunkdata chunk) with
        memory := memory,
        trace := st.trace ++ [Event.transfer chunkdata 0 0 common.chunkcount 1 1] })

/-- The part of the whole-variable branch of `NCZ_transfer` from its `switch` on. -/
def NCZ_transfer_wholevar_after {σ : Type} (malloc_fillchunk : Bool) (common : Common)
    (stat : Int) (chunkdata : Nat) (st : State σ) : Run (Int × State σ) :=
  if stat = NC_ENOTFOUND then
    let f := NCZ_fillchunk malloc_fillchunk chunkdata common st
    if f.1 ≠ 0 then .ret f else NCZ_transfer_wholevar_copy common f.1 chunkdata f.2
  else if stat = NC_NOERR then NCZ_transfer_wholevar_copy common stat chunkdata st
  else .ret (stat, st)

/-- The whole-variable branch of `NCZ_transfer`. -/
def NCZ_transfer_wholevar {σ Odom : Type} (env : Env σ Odom) (common : Common)
    (chunkodom : Odom) (st : State σ) : Run (Int × State σ) :=
  let chunkindices := env.nczodom_indices chunkodom
  let r := env.read st.source st.cache st.chunks chunkindices 0
  NCZ_transfer_wholevar_after env.malloc_fillchunk common r.stat r.chunkdata
    (st.afterRead chunkindices r)

/-- The projection `proj[r]` that one iteration of the chunk loop selects:
`indexr = chunkindices[r]; indexr -= slp->range.start; proj[r] = &projlist[indexr]`. -/
def selectProjection (allprojections : Nat → NCZSliceProjections) (chunkindices : List Nat)
    (r : Nat) : NCZProjection :=
  let slp := allprojections r
  slp.projections (sub64 (chunkindices.getD r 0) slp.range.start)

/-- One iteration of the chunk loop of `NCZ_transfer` from its `switch` on, followed by
the rest of the loop `rest`: the fill when the chunk was not found, the two odometers,
the walk, and `nczodom_next(chunkodom)`. -/
def NCZ_transfer_iteration_after {σ Odom : Type} (env : Env σ Odom) (common : Common)
    (walkfuel : Nat) (rest : Odom → Nat → State σ → Run (Int × State σ))
    (chunkodom : Odom) (slpslices memslices : List NCZSlice)
    (stat : Int) (chunkdata : Nat) (st : State σ) : Run (Int × State σ) :=
  let walk (st1 : State σ) : Run (Int × State σ) :=
    let slpodom := env.nczodom_fromslices common.rank slpslices
    let memodom := env.nczodom_fromslices common.rank memslices
    match NCZ_walk env common chunkdata walkfuel slpodom memodom st1 with
    | .abort => .abort
    | .diverge => .diverge
    | .ret w =>
      if w.1 ≠ 0 then .ret w
      else rest (env.nczodom_next chunkodom) chunkdata (w.2.log Event.chunknext)
  if stat = NC_ENOTFOUND then
    let f := NCZ_fillchunk env.malloc_fillchunk chunkdata common st
    if f.1 ≠ 0 then .ret f else walk f.2
  else if stat = NC_NOERR then walk st
  else .ret (stat, st)

/-- The chunk loop `for(;nczodom_more(chunkodom);)` of `NCZ_transfer`.  `chunkdata` is
the local variable of that name, which keeps its value from one iteration to the next.
The loop ends with the status 0 that `stat` holds at its head. -/
def NCZ_transfer_loop {σ Odom : Type} (env : Env σ Odom) (common : Common)
    (allprojections : Nat → NCZSliceProjections) (walkfuel : Nat) :
    Nat → Odom → Nat → State σ → Run (Int × State σ)
  | 0, chunkodom, _, st =>
    if env.nczodom_more chunkodom then .diverge else .ret (NC_NOERR, st)
  | fuel + 1, chunkodom, chunkdata, st =>
    if env.nczodom_more chunkodom then
      let chunkindices := env.nczodom_indices chunkodom
      let proj := selectProjection allprojections chunkindices
      let slpslices := (List.range common.rank).map fun r => (proj r).chunkslice
      let memslices := (List.range common.rank).map fun r => (proj r).memslice
      let r := env.read st.source st.cache st.chunks chunkindices chunkdata
      NCZ_transfer_iteration_after env common walkfuel
        (NCZ_transfer_loop env common allprojections walkfuel fuel)
        chunkodom slpslices memslices r.stat r.chunkdata (st.afterRead chunkindices r)
    else .ret (NC_NOERR, st)

/-- The function `NCZ_transfer` of zwalk.c.  `fuel` bounds the iterations of the chunk
loop and of each walk.  A NULL odometer or projection vector after a successful
`NCZ_projectslices` would be dereferenced. -/
def NCZ_transfer {σ Odom : Type} (env : Env σ Odom) (fuel : Nat) (common0 : Common)
    (slices : Nat → NCZSlice) (st : State σ) : Run (Int × State σ) :=
  match NCZ_projectslices env common0.dimlens common0.chunklens slices common0 with
  | .abort => .abort
  | .diverge => .diverge
  | .ret (stat, common, odomp) =>
    if stat ≠ 0 then .ret (stat, st)
    else
      match odomp, common.allprojections with
      | some chunkodom, some allprojections =>
        if iswholevar common slices ≠ 0 then NCZ_transfer_wholevar env common chunkodom st
        else NCZ_transfer_loop env common allprojections fuel fuel chunkodom 0 st
      | _, _ => .abort

/-! ## The entry operation -/

/-- The fields of `NC_VAR_INFO_T`, of its `NCZ_VAR_INFO_T` and of the file's
`NCZ_FILE_INFO_T` that `NCZ_transferslice` reads: `dimlen r` is `var->dim[r]->len`,
`scalar` is `zvar->scalar`, `native_endianness` is `zfile->native_endianness`. -/
structure NC_VAR_INFO_T where
  ndims : Nat
  dimlen : Nat → Nat
  chunksizes : Nat → Nat
  endianness : Int
  scalar : Nat
  native_endianness : Int

/-- The context `NCZ_transferslice` fills in, and the slices it builds, for `r` below
`common.rank+common.scalar`; the entries of its stack arrays that the loop does not
write are never read by zwalk.c and are given by the same formula here. -/
def NCZ_transferslice_common (var : NC_VAR_INFO_T) (reading : Bool)
    (start count stride : Nat → Nat) (typesize : Nat) (fillvalue : Option Buffer) :
    Common × (Nat → NCZSlice) :=
  let rank := var.ndims + var.scalar
  let scalar := var.scalar
  let dimlens : Nat → Nat := fun r => if scalar ≠ 0 then 1 else var.dimlen r
  let chunklens : Nat → Nat := fun r => var.chunksizes r
  let slices : Nat → NCZSlice := fun r =>
    { start := start r, stride := stride r,
      stop := min ((start r + (count r * stride r) % 2 ^ 64) % 2 ^ 64) (dimlens r),
      len := dimlens r }
  let chunkcount := (List.range (rank + scalar)).foldl
    (fun c r => (c * chunklens r) % 2 ^ 64) 1
  ({ reading := reading, rank := rank, scalar := scalar, typesize := typesize,
     swap := if var.native_endianness = var.endianness then false else true,
     chunkcount := chunkcount, fillvalue := fillvalue,
     dimlens := dimlens, chunklens := chunklens, memshape := fun r => count r,
     shape := fun _ => 0, allprojections := none }, slices)

/-- The function `NCZ_clearcommon` of zwalk.c: `NCZ_clearsliceprojections` on
`common->allprojections`, then `nullfree` of `common->allprojections` and of
`common->fillvalue`.  `owned` tells whether the two pointers of `common` are NULL or
came from the allocator: releasing them then changes none of the objects of the state.
Otherwise `common` holds whatever its storage held, and a pointer in it that is not NULL
is handed to `free` without having come from the allocator, which stops the process. -/
def NCZ_clearcommon (owned : Bool) (common : Common) : Run Unit :=
  if owned then .ret ()
  else if common.allprojections.isSome || common.fillvalue.isSome then .abort
  else .ret ()

/-- The label `done` of `NCZ_transferslice`: `NCZ_clearcommon(&common); return stat;`. -/
def NCZ_transferslice_done {σ : Type} (owned : Bool) (common : Common)
    (result : Run (Int × State σ)) : Run (Int × State σ) :=
  match result with
  | .ret x =>
    match NCZ_clearcommon owned common with
    | .ret _ => .ret x
    | .abort => .abort
    | .diverge => .diverge
  | .abort => .abort
  | .diverge => .diverge

/-- The function `NCZ_transferslice` of zwalk.c; `st.memory` is the buffer `memory`
points to.  `ncz_chunking_init` only sets the debug level.  The `goto done` after the
type lookup is taken before `memset(&common,0,sizeof(common))`, so `NCZ_clearcommon`
then works on the storage of `common` as it was on entry; on every later path `common`
has been zeroed and its two pointers have been set by the fill value provider and by
`NCZ_projectslices` only. -/
def NCZ_transferslice {σ Odom : Type} (env : Env σ Odom) (fuel : Nat) (var : NC_VAR_INFO_T)
    (reading : Bool) (start count stride : Nat → Nat) (typecode : Int) (st : State σ) :
    Run (Int × State σ) :=
  let ty := env.NC4_inq_atomic_type typecode
  if ty.1 ≠ 0 then NCZ_transferslice_done false env.stack_common (.ret (ty.1, st))
  else
    let fv := env.ncz_get_fill_value
    let cs := NCZ_transferslice_common var reading start count stride ty.2 fv.2
    if fv.1 ≠ 0 then NCZ_transferslice_done true cs.1 (.ret (fv.1, st))
    else
      if cs.1.scalar ≠ 0 then
        NCZ_transferslice_done true cs.1 (.ret (NCZ_transferscalar env cs.1 st))
      else NCZ_transferslice_done true cs.1 (NCZ_transfer env fuel cs.1 cs.2 st)

/-! ## The odometer and the chunk-range calculator, from the spec

zodom.c and zchunking.c are not under src/.  The code of zwalk.c reaches them through the
fields of `Env`; the definitions below are what the spec says of them, for the
properties that depend on how an odometer counts. -/

/-- Modelled from the spec: the structure `NCZOdometer` of zodom.c is not under src/.  The
spec's data model gives it as `{rank, start[], stop[], stride[], shapeLen[], current[]}`;
the vectors are lists with the outermost dimension first, `len` is `shapeLen` and `index`
is `current`. -/
structure NCZOdometer where
  rank : Nat
  start : List Nat
  stop : List Nat
  stride : List Nat
  len : List Nat
  index : List Nat
  deriving DecidableEq, Repr

/-- Modelled from the spec: `nczodom_new` of zodom.c is not under src/.  The spec has an
odometer "parameterized by `(start, stop, stride, shapeLen)` per dimension"; a new one
stands at `start`.  Its allocation is taken to succeed. -/
def nczodom_new (rank : Nat) (start stop stride len : List Nat) : Option NCZOdometer :=
  some { rank := rank, start := start, stop := stop, stride := stride, len := len,
         index := start }

/-- Modelled from the spec: `nczodom_more` of zodom.c is not under src/.  The spec:
"true until the odometer has advanced past `stop` in the outermost dimension". -/
def nczodom_more (odom : NCZOdometer) : Bool :=
  decide (odom.index.getD 0 0 < odom.stop.getD 0 0)

/-- Modelled from the spec: `nczodom_indices` of zodom.c is not under src/.  The spec:
"current per-dimension index vector". -/
def nczodom_indices (odom : NCZOdometer) : List Nat := odom.index

/-- Modelled from the spec: the part of `nczodom_next` of zodom.c (not under src/) that
works on the dimensions after the outermost, given their `start`, `stop`, `stride` and
current indices.  The spec: "advances the fastest-varying (last) dimension by `stride`;
on overflow past `stop` in that dimension, resets it to `start` and carries into the next
slower dimension, recursively".  The result is the new indices and whether a carry goes
on into the next slower dimension. -/
def nczodom_carry : List Nat → List Nat → List Nat → List Nat → List Nat × Bool
  | s :: start, e :: stop, d :: stride, i :: index =>
    let inner := nczodom_carry start stop stride index
    if inner.2 then
      if i + d < e then ((i + d) :: inner.1, false) else (s :: inner.1, true)
    else (i :: inner.1, false)
  | _, _, _, index => (index, true)

/-- Modelled from the spec: `nczodom_next` of zodom.c is not under src/.  The carry of
`nczodom_carry` through the faster dimensions; the outermost dimension takes the carry
and is never reset: "Terminal condition is reaching `stop` in the outermost
dimension". -/
def nczodom_next (odom : NCZOdometer) : NCZOdometer :=
  match odom.start, odom.stop, odom.stride, odom.index with
  | _ :: start, _ :: stop, d :: stride, i :: index =>
    let inner := nczodom_carry start stop stride index
    { odom with index := (if inner.2 then i + d else i) :: inner.1 }
  | _, _, _, _ => odom

/-- Modelled from the spec: `NCZ_compute_chunk_ranges` of zchunking.c is not under src/.
The spec: one range per dimension "such that every element index selectable by the slice
(for any valid stride) falls inside chunk indices `[range.start, range.stop)`, and the
range is minimal"; "a slice with `start == stop` (empty selection) yields an empty range";
"the calculator must clamp `stop` against the dimension length before converting to chunk
units".  The range runs from the chunk of `start` to the chunk of the last position
before the clamped `stop`. -/
def NCZ_compute_chunk_ranges (_rank : Nat) (slices : Nat → NCZSlice) (chunklens : Nat → Nat) :
    Int × (Nat → NCZChunkRange) :=
  (NC_NOERR, fun r =>
    let stop := min (slices r).stop (slices r).len
    if stop ≤ (slices r).start then
      { start := (slices r).start / chunklens r, stop := (slices r).start / chunklens r }
    else
      { start := (slices r).start / chunklens r, stop := (stop - 1) / chunklens r + 1 })

/-! ## Definitions used to state the properties -/

/-- The write of one run followed by the read of the same run: `transfern` with
`reading = 0` from `memory` into `chunkdata`, then `transfern` with `reading = 1`, the
same count, strides and swap flag, from the chunk it left back into the memory it left
(the memory the write left is `memory` itself).  The result is the memory after the
read. -/
def roundtrip (common : Common) (chunkdata : Buffer) (slpptr : Nat) (memory : Buffer)
    (memptr : Nat) (count slpstride memstride : Nat) : Option Buffer :=
  (transfern { common with reading := false } chunkdata slpptr memory memptr
      count slpstride memstride).bind fun w =>
    (transfern { common with reading := true } w.1 slpptr w.2 memptr
      count slpstride memstride).map Prod.snd

/-- A sequence of `n` element copies: for `k` from 0 below `n`, in this order, the
`typesize` bytes of element `k*sstride` of the source run go to element `k*dstride` of
the destination run. -/
def copyElements (typesize : Nat) (dst : Buffer) (dptr dstride : Nat) (src : Buffer)
    (sptr sstride : Nat) (n : Nat) : Buffer :=
  (List.range n).foldl
    (fun b k => memcpy b (dptr + k * dstride * typesize) src (sptr + k * sstride * typesize)
      typesize) dst

/-- The byte swap that ends `transfern`, applied when the swap flag is set: the
`typesize*count` bytes at `data + p` are swapped element by element. -/
def swapIf (swap : Bool) (typesize count : Nat) (data : Buffer) (p : Nat) : Buffer :=
  if swap then NCZ_swapatomicdata (typesize * count) data p typesize else data

/-- The condition of the whole-variable fast path as the spec words it: in every
dimension the slice starts at 0, stops at the dimension length, has stride 1, and the
dimension is one chunk long. -/
def WholeVar (common : Common) (slices : Nat → NCZSlice) : Prop :=
  ∀ i, i < common.rank →
    (slices i).start = 0 ∧ (slices i).stop = common.dimlens i ∧ (slices i).stride = 1 ∧
      common.dimlens i = common.chunklens i

/-- The whole-variable condition can be evaluated: it ranges over the dimensions below
the rank. -/
instance WholeVar.decidable (common : Common) (slices : Nat → NCZSlice) :
    Decidable (WholeVar common slices) := by
  unfold WholeVar
  infer_instance

/-- A context of rank 1 with dimension length 10 and chunk length 10. -/
def exampleCommon (reading swap : Bool) (typesize : Nat) (fillvalue : Option Buffer) : Common :=
  { reading := reading, rank := 1, scalar := 0, typesize := typesize, swap := swap,
    chunkcount := 10, fillvalue := fillvalue,
    dimlens := fun _ => 10, chunklens := fun _ => 10, memshape := fun _ => 10,
    shape := fun _ => 0, allprojections := none }

/-- The slice covering the whole of a dimension of length 10. -/
def exampleSlices : Nat → NCZSlice := fun _ => { start := 0, stop := 10, stride := 1, len := 10 }

/-- A one-dimensional odometer as a pair (index, stop) that hands out one element at a
time, a chunk-range calculator and a projector for slices that lie in the first chunk,
and a reader that always answers `stat` with the chunk at address 1. -/
def exampleEnv (stat : Int) : Env Unit (Nat × Nat) :=
  { read := fun source cache chunks _ _ =>
      { stat := stat, chunkdata := 1, source := source, cache := cache, chunks := chunks },
    nczodom_new := fun _ start stop _ _ => some (start.getD 0 0, stop.getD 0 0),
    nczodom_fromslices := fun _ slices =>
      ((slices.getD 0 default).start, (slices.getD 0 default).stop),
    nczodom_more := fun o => decide (o.1 < o.2),
    nczodom_next := fun o => (o.1 + 1, o.2),
    nczodom_indices := fun o => [o.1],
    nczodom_offset := fun o => o.1,
    nczodom_avail := fun _ => 1,
    nczodom_laststride := fun _ => 1,
    nczodom_lastlen := fun _ => 1,
    NCZ_compute_chunk_ranges := fun _ _ _ => (0, fun _ => { start := 0, stop := 1 }),
    NCZ_compute_all_slice_projections := fun _ slices ranges =>
      (0, fun r =>
        { range := ranges r, count := 1,
          projections := fun _ =>
            { iocount := (slices r).stop - (slices r).start,
              chunkslice := slices r,
              memslice := { start := 0, stop := (slices r).stop - (slices r).start,
                            stride := 1, len := (slices r).stop - (slices r).start } } }),
    ceildiv := fun x y => if x % y = 0 then x / y else x / y + 1,
    calloc_projections := true,
    malloc_fillchunk := true,
    NC4_inq_atomic_type := fun _ => (0, 1),
    ncz_get_fill_value := (0, none),
    stack_common := exampleCommon false false 0 none }

/-- A state whose memory holds the bytes of `memory`, whose chunk at address 1 holds the
bytes of `chunk`, and whose cache has chunks of `chunksize` bytes and no fill template. -/
def exampleState (memory chunk : List UInt8) (chunksize : Nat) : State Unit :=
  { memory := Buffer.ofList memory,
    chunks := fun p => if p = 1 then Buffer.ofList chunk else Buffer.ofList [],
    cache := { chunksize := chunksize, fillchunk := none },
    source := (),
    trace := [] }

/-- A variable of one dimension of length `len` stored in chunks of length `chunklen`. -/
def exampleVar (len chunklen : Nat) : NC_VAR_INFO_T :=
  { ndims := 1, dimlen := fun _ => len, chunksizes := fun _ => chunklen,
    endianness := 0, scalar := 0, native_endianness := 0 }

/-- The small context with a type registry that rejects every type code (with the status
-45, `NC_EBADTYPE`) and a stack that holds a non-zero word where the `fillvalue` pointer
of the local `common` lies. -/
def exampleBadTypeEnv : Env Unit (Nat × Nat) :=
  { exampleEnv 0 with
    NC4_inq_atomic_type := fun _ => (-45, 0),
    stack_common := exampleCommon false false 0 (some (Buffer.ofList [1])) }

/-- A variable of two dimensions of lengths 3 and 4 stored as one chunk of 3 by 4. -/
def exampleOneChunkVar : NC_VAR_INFO_T :=
  { ndims := 2, dimlen := fun r => if r = 0 then 3 else 4,
    chunksizes := fun r => if r = 0 then 3 else 4,
    endianness := 0, scalar := 0, native_endianness := 0 }

theorem memcpy_inside (dst : Buffer) (d : Nat) (src : Buffer) (s n i : Nat) (hi : i < n) :
    memcpy dst d src s n (d + i) = src (s + i) := by
  unfold memcpy
  have h : d ≤ d + i ∧ d + i < d + n := ⟨Nat.le_add_right d i, by omega⟩
  rw [if_pos h, Nat.add_sub_cancel_left]

theorem memcpy_outside (dst : Buffer) (d : Nat) (src : Buffer) (s n a : Nat)
    (ha : a < d ∨ d + n ≤ a) : memcpy dst d src s n a = dst a := by
  unfold memcpy
  have h : ¬ (d ≤ a ∧ a < d + n) := by omega
  rw [if_neg h]

theorem memcpy_zero_inside (dst src : Buffer) (n a : Nat) (ha : a < n) :
    memcpy dst 0 src 0 n a = src a := by
  have h := memcpy_inside dst 0 src 0 n a ha
  simpa using h

theorem element_byte_lt {e b count typesize : Nat} (he : e < count) (hb : b < typesize) :
    e * typesize + b < typesize * count := by
  have h1 : (e + 1) * typesize ≤ count * typesize := Nat.mul_le_mul_right typesize he
  rw [Nat.mul_comm typesize count]
  rw [Nat.add_mul, Nat.one_mul] at h1
  omega

theorem NCZ_swapatomicdata_inside (data : Buffer) (p typesize count e b : Nat)
    (he : e < count) (hb : b < typesize) :
    NCZ_swapatomicdata (typesize * count) data p typesize (p + (e * typesize + b)) =
      data (p + (e * typesize + (typesize - 1 - b))) := by
  unfold NCZ_swapatomicdata
  have hlt := element_byte_lt he hb
  have h : p ≤ p + (e * typesize + b) ∧ p + (e * typesize + b) < p + typesize * count :=
    ⟨Nat.le_add_right _ _, by omega⟩
  have hpos : 0 < typesize := by omega
  rw [if_pos h, Nat.add_sub_cancel_left]
  have hdiv : (e * typesize + b) / typesize = e := by
    rw [Nat.add_comm, Nat.add_mul_div_right _ _ hpos, Nat.div_eq_of_lt hb, Nat.zero_add]
  have hmod : (e * typesize + b) % typesize = b := by
    rw [Nat.add_comm, Nat.add_mul_mod_self_right, Nat.mod_eq_of_lt hb]
  rw [hdiv, hmod]

theorem NCZ_swapatomicdata_outside (data : Buffer) (p typesize datalen a : Nat)
    (ha : a < p ∨ p + datalen ≤ a) :
    NCZ_swapatomicdata datalen data p typesize a = data a := by
  unfold NCZ_swapatomicdata
  have h : ¬ (p ≤ a ∧ a < p + datalen) := by omega
  rw [if_neg h]

/-! ## The per-run transfer -/

/-- With both strides 1 `transfern` takes the `memcpy` branch in either direction and
returns: the chunk and the memory it leaves, in closed form. -/
theorem transfern_contiguous (common : Common) (chunkdata : Buffer) (slpptr : Nat)
    (memory : Buffer) (memptr count : Nat) :
    transfern common chunkdata slpptr memory memptr count 1 1 =
      some (if common.reading = true then
          (chunkdata,
            if common.swap = true then
              NCZ_swapatomicdata (common.typesize * count)
                (memcpy memory memptr chunkdata slpptr (common.typesize * count)) memptr
                common.typesize
            else memcpy memory memptr chunkdata slpptr (common.typesize * count))
        else
          (if common.swap = true then
              NCZ_swapatomicdata (common.typesize * count)
                (memcpy chunkdata slpptr memory memptr (common.typesize * count)) slpptr
                common.typesize
            else memcpy chunkdata slpptr memory memptr (common.typesize * count),
           memory)) := by
  cases hr : common.reading <;> simp [transfern, hr]

/-- C1 (the code breaks the round trip).  Two runs of `transfern` on which writing and
then reading back does not give the memory back.  First run: elements of 1 byte,
count 2, chunk stride 1, memory stride 2, no swap, memory bytes 1,2,3: the write copies
the first two memory bytes in one block, the read-back stores the second chunk element
at memory byte 2, which ends as 2 where it was 3.  Second run: elements of 2 bytes,
count 4, chunk stride 2, memory stride 1, swap on, memory bytes 1..8: the read-back
swaps all four memory elements although only two were transferred, so bytes 4 and 5
end as 6,5 where they were 5,6. -/
theorem transfern_roundtrip_broken :
    (roundtrip (exampleCommon false false 1 none) (Buffer.ofList []) 0
        (Buffer.ofList [1, 2, 3]) 0 2 1 2).map (fun m => [m 0, m 1, m 2]) = some [1, 2, 2] ∧
    (roundtrip (exampleCommon false true 2 none) (Buffer.ofList []) 0
        (Buffer.ofList [1, 2, 3, 4, 5, 6, 7, 8]) 0 4 2 1).map
          (fun m => [m 0, m 1, m 2, m 3, m 4, m 5, m 6, m 7]) =
      some [1, 2, 3, 4, 6, 5, 8, 7] := by
  constructor <;> decide

/-- C10.  Read run with contiguous sides: in read direction with chunk stride 1 and
memory stride 1, `transfern` returns, leaves the chunk as it was, and makes byte `b` of
element `e` of the run in memory (for `e < count`, `b < typesize`) equal to byte `b` of
element `e` of the run in the chunk when swap is off, and to byte `typesize - 1 - b` of
that element when swap is on; memory bytes outside the `typesize*count` bytes of the run
are unchanged. -/
theorem transfern_read_contiguous (common : Common) (hreading : common.reading = true)
    (chunkdata : Buffer) (slpptr : Nat) (memory : Buffer) (memptr count : Nat) :
    ∃ m, transfern common chunkdata slpptr memory memptr count 1 1 = some (chunkdata, m) ∧
      (∀ e b, e < count → b < common.typesize →
        m (memptr + (e * common.typesize + b)) =
          chunkdata (slpptr + (e * common.typesize +
            (if common.swap = true then common.typesize - 1 - b else b)))) ∧
      (∀ a, a < memptr ∨ memptr + common.typesize * count ≤ a → m a = memory a) := by
  cases hswap : common.swap with
  | false =>
    refine ⟨memcpy memory memptr chunkdata slpptr (common.typesize * count), ?_, ?_, ?_⟩
    · simp [transfern, hreading, hswap]
    · intro e b he hb
      simp only [Bool.false_eq_true, if_false]
      exact memcpy_inside _ _ _ _ _ _ (element_byte_lt he hb)
    · intro a ha
      exact memcpy_outside _ _ _ _ _ _ ha
  | true =>
    refine ⟨NCZ_swapatomicdata (common.typesize * count)
      (memcpy memory memptr chunkdata slpptr (common.typesize * count)) memptr common.typesize,
      ?_, ?_, ?_⟩
    · simp [transfern, hreading, hswap]
    · intro e b he hb
      simp only [if_true]
      rw [NCZ_swapatomicdata_inside _ _ _ _ _ _ he hb]
      exact memcpy_inside _ _ _ _ _ _ (element_byte_lt he (by omega))
    · intro a ha
      rw [NCZ_swapatomicdata_outside _ _ _ _ _ ha]
      exact memcpy_outside _ _ _ _ _ _ ha

/-- C10 at a concrete run: 3 elements of 2 bytes read with swap on, from chunk offset 2
to memory offset 4. -/
theorem transfern_read_contiguous_witness :
    (exampleCommon true true 2 none).reading = true ∧
    ∃ m, transfern (exampleCommon true true 2 none) (Buffer.ofList [9, 9, 1, 2, 3, 4, 5, 6]) 2
        (Buffer.ofList []) 4 3 1 1 = some (Buffer.ofList [9, 9, 1, 2, 3, 4, 5, 6], m) ∧
      (∀ e b, e < 3 → b < (exampleCommon true true 2 none).typesize →
        m (4 + (e * (exampleCommon true true 2 none).typesize + b)) =
          Buffer.ofList [9, 9, 1, 2, 3, 4, 5, 6]
            (2 + (e * (exampleCommon true true 2 none).typesize +
              (if (exampleCommon true true 2 none).swap = true
                then (exampleCommon true true 2 none).typesize - 1 - b else b)))) ∧
      (∀ a, a < 4 ∨ 4 + (exampleCommon true true 2 none).typesize * 3 ≤ a →
        m a = Buffer.ofList [] a) :=
  ⟨rfl, transfern_read_contiguous (exampleCommon true true 2 none) rfl
    (Buffer.ofList [9, 9, 1, 2, 3, 4, 5, 6]) 2 (Buffer.ofList []) 4 3⟩

/-! ## Linear offsets -/

theorem rowMajor_succ (R : Nat) (indices dimlens : Nat → Nat) :
    rowMajor (R + 1) indices dimlens = rowMajor R indices dimlens * dimlens R + indices R := by
  unfold rowMajor
  rw [Finset.sum_range_succ, Finset.sum_mul]
  congr 1
  · apply Finset.sum_congr rfl
    intro i hi
    have hle : i + 1 ≤ R := by
      have := Finset.mem_range.mp hi
      omega
    rw [Finset.prod_Ico_succ_top hle, mul_assoc]
  · simp

theorem NCZ_computelinearoffset_succ (R : Nat) (indices dimlens : Nat → Nat) :
    NCZ_computelinearoffset (R + 1) indices dimlens =
      ((NCZ_computelinearoffset R indices dimlens * dimlens R) % 2 ^ 64 + indices R) % 2 ^ 64 := by
  simp [NCZ_computelinearoffset, List.range_succ, List.foldl_append]

theorem NCZ_computelinearoffset_mod (R : Nat) (indices dimlens : Nat → Nat) :
    NCZ_computelinearoffset R indices dimlens = rowMajor R indices dimlens % 2 ^ 64 := by
  induction R with
  | zero => simp [NCZ_computelinearoffset, rowMajor]
  | succ R ih =>
    rw [NCZ_computelinearoffset_succ, rowMajor_succ, ih]
    simp [Nat.add_mod, Nat.mul_mod]

/-- C2.  `NCZ_computelinearoffset(R, indices, dimlens)` is the row-major linearization
of the index vector computed in `size64_t`: the sum over `i < R` of `indices[i]` times
the product of `dimlens[j]` for `i < j < R`, reduced modulo 2^64; it is that sum itself
whenever the sum is below 2^64, and it is 0 when `R = 0`. -/
theorem NCZ_computelinearoffset_rowMajor (R : Nat) (indices dimlens : Nat → Nat) :
    NCZ_computelinearoffset R indices dimlens = rowMajor R indices dimlens % 2 ^ 64 ∧
    (rowMajor R indices dimlens < 2 ^ 64 →
      NCZ_computelinearoffset R indices dimlens = rowMajor R indices dimlens) ∧
    NCZ_computelinearoffset 0 indices dimlens = 0 := by
  refine ⟨NCZ_computelinearoffset_mod R indices dimlens, ?_, ?_⟩
  · intro h
    rw [NCZ_computelinearoffset_mod, Nat.mod_eq_of_lt h]
  · simp [NCZ_computelinearoffset]

/-- C2 at the index vector (1,2,3) of a 4 x 5 x 6 array: offset 1*30 + 2*6 + 3 = 45. -/
theorem NCZ_computelinearoffset_rowMajor_witness :
    NCZ_computelinearoffset 3 (fun i => [1, 2, 3].getD i 0) (fun i => [4, 5, 6].getD i 0) = 45 ∧
    rowMajor 3 (fun i => [1, 2, 3].getD i 0) (fun i => [4, 5, 6].getD i 0) = 45 := by
  have h := NCZ_computelinearoffset_rowMajor 3 (fun i => [1, 2, 3].getD i 0)
    (fun i => [4, 5, 6].getD i 0)
  have hr : rowMajor 3 (fun i => [1, 2, 3].getD i 0) (fun i => [4, 5, 6].getD i 0) = 45 := by
    decide
  refine ⟨?_, hr⟩
  rw [h.2.1 (by rw [hr]; decide), hr]

/-! ## Termination and round trips of the per-run transfer -/

theorem transfern_readloop_isSome (typesize count slpstride memstride : Nat)
    (chunkdata : Buffer) (slpptr memptr : Nat) :
    ∀ (fuel s m : Nat) (memory : Buffer), count ≤ s + fuel * slpstride →
      (transfern_readloop typesize count slpstride memstride chunkdata slpptr memptr
        fuel s m memory).isSome = true := by
  intro fuel
  induction fuel with
  | zero =>
    intro s m memory h
    have hs : ¬ s < count := by omega
    simp [transfern_readloop, hs]
  | succ fuel ih =>
    intro s m memory h
    unfold transfern_readloop
    split_ifs with hs
    · apply ih
      rw [Nat.add_mul, Nat.one_mul] at h
      omega
    · rfl

theorem transfern_writeloop_isSome (typesize count slpstride memstride : Nat)
    (memory : Buffer) (slpptr memptr : Nat) :
    ∀ (fuel s m : Nat) (chunkdata : Buffer), count ≤ s + fuel * slpstride →
      (transfern_writeloop typesize count slpstride memstride memory slpptr memptr
        fuel s m chunkdata).isSome = true := by
  intro fuel
  induction fuel with
  | zero =>
    intro s m chunkdata h
    have hs : ¬ s < count := by omega
    simp [transfern_writeloop, hs]
  | succ fuel ih =>
    intro s m chunkdata h
    unfold transfern_writeloop
    split_ifs with hs
    · apply ih
      rw [Nat.add_mul, Nat.one_mul] at h
      omega
    · rfl

theorem transfern_readloop_stuck (typesize count memstride : Nat)
    (chunkdata : Buffer) (slpptr memptr : Nat) :
    ∀ (fuel s m : Nat) (memory : Buffer), s < count →
      transfern_readloop typesize count 0 memstride chunkdata slpptr memptr
        fuel s m memory = none := by
  intro fuel
  induction fuel with
  | zero =>
    intro s m memory h
    simp [transfern_readloop, h]
  | succ fuel ih =>
    intro s m memory h
    unfold transfern_readloop
    rw [if_pos h]
    exact ih _ _ _ h

theorem transfern_writeloop_stuck (typesize count memstride : Nat)
    (memory : Buffer) (slpptr memptr : Nat) :
    ∀ (fuel s m : Nat) (chunkdata : Buffer), s < count →
      transfern_writeloop typesize count 0 memstride memory slpptr memptr
        fuel s m chunkdata = none := by
  intro fuel
  induction fuel with
  | zero =>
    intro s m chunkdata h
    simp [transfern_writeloop, h]
  | succ fuel ih =>
    intro s m chunkdata h
    unfold transfern_writeloop
    rw [if_pos h]
    exact ih _ _ _ h

/-- The iteration bound of `transfern` is no restriction: the model has no result
exactly when the element loop of the C code does not end, which is when the chunk
stride is 0 and there is at least one element to move. -/
theorem transfern_eq_none_iff (common : Common) (chunkdata : Buffer) (slpptr : Nat)
    (memory : Buffer) (memptr count slpstride memstride : Nat) :
    transfern common chunkdata slpptr memory memptr count slpstride memstride = none ↔
      slpstride = 0 ∧ 0 < count := by
  have hbound : ¬ (slpstride = 0 ∧ 0 < count) → count ≤ 0 + count * slpstride := by
    intro h
    rcases Nat.eq_zero_or_pos slpstride with hz | hpos
    · have : count = 0 := by omega
      subst this
      simp
    · have := Nat.le_mul_of_pos_right count hpos
      omega
  have hread : transfern_readloop common.typesize count slpstride memstride chunkdata slpptr
      memptr count 0 0 memory = none ↔ slpstride = 0 ∧ 0 < count := by
    constructor
    · intro h
      by_contra hne
      have := transfern_readloop_isSome common.typesize count slpstride memstride chunkdata
        slpptr memptr count 0 0 memory (hbound hne)
      rw [h] at this
      exact absurd this (by decide)
    · rintro ⟨hz, hc⟩
      subst hz
      exact transfern_readloop_stuck _ _ _ _ _ _ _ _ _ _ hc
  have hwrite : transfern_writeloop common.typesize count slpstride memstride memory slpptr
      memptr count 0 0 chunkdata = none ↔ slpstride = 0 ∧ 0 < count := by
    constructor
    · intro h
      by_contra hne
      have := transfern_writeloop_isSome common.typesize count slpstride memstride memory
        slpptr memptr count 0 0 chunkdata (hbound hne)
      rw [h] at this
      exact absurd this (by decide)
    · rintro ⟨hz, hc⟩
      subst hz
      exact transfern_writeloop_stuck _ _ _ _ _ _ _ _ _ _ hc
  unfold transfern
  dsimp only
  cases hr : common.reading
  · simp only [Bool.false_eq_true, if_false, Option.map_eq_none']
    by_cases h1 : slpstride = 1
    · simp [h1]
    · rw [if_neg h1]
      exact hwrite
  · simp only [if_true, Option.map_eq_none']
    by_cases h1 : slpstride = 1 ∧ memstride = 1
    · simp [h1]
    · rw [if_neg h1]
      exact hread

/-- Every offset below `typesize*count` is byte `b` of element `e` for one `e < count`
and one `b < typesize`. -/
theorem element_byte_of_lt {i count typesize : Nat} (hi : i < typesize * count) :
    ∃ e b, e < count ∧ b < typesize ∧ i = e * typesize + b := by
  have hpos : 0 < typesize := by
    rcases Nat.eq_zero_or_pos typesize with h | h
    · subst h
      simp at hi
    · exact h
  refine ⟨i / typesize, i % typesize, ?_, Nat.mod_lt _ hpos, ?_⟩
  · exact Nat.div_lt_of_lt_mul hi
  · rw [Nat.mul_comm]
    exact (Nat.div_add_mod i typesize).symm

/-- Swapping the elements of a run twice gives the run back. -/
theorem NCZ_swapatomicdata_memcpy_swap (typesize count : Nat) (chunkdata : Buffer)
    (slpptr : Nat) (memory : Buffer) (memptr : Nat) (a : Nat) :
    NCZ_swapatomicdata (typesize * count)
      (memcpy memory memptr
        (NCZ_swapatomicdata (typesize * count)
          (memcpy chunkdata slpptr memory memptr (typesize * count)) slpptr typesize)
        slpptr (typesize * count))
      memptr typesize a = memory a := by
  by_cases hin : memptr ≤ a ∧ a < memptr + typesize * count
  · have hlt : a - memptr < typesize * count := by omega
    obtain ⟨e, b, he, hb, hi⟩ := element_byte_of_lt hlt
    have ha : a = memptr + (e * typesize + b) := by omega
    have hb' : typesize - 1 - b < typesize := by omega
    have hbb : typesize - 1 - (typesize - 1 - b) = b := by omega
    rw [ha, NCZ_swapatomicdata_inside _ _ _ _ _ _ he hb,
      memcpy_inside _ _ _ _ _ _ (element_byte_lt he hb'),
      NCZ_swapatomicdata_inside _ _ _ _ _ _ he hb', hbb,
      memcpy_inside _ _ _ _ _ _ (element_byte_lt he hb)]
  · have hout : a < memptr ∨ memptr + typesize * count ≤ a := by omega
    rw [NCZ_swapatomicdata_outside _ _ _ _ _ hout, memcpy_outside _ _ _ _ _ _ hout]

/-- Where the round trip of one run does hold: with chunk stride 1 and memory stride 1,
writing a run and reading it back leaves every byte of the memory as it was, whether or
not the swap flag is set. -/
theorem roundtrip_contiguous (common : Common) (chunkdata : Buffer) (slpptr : Nat)
    (memory : Buffer) (memptr count : Nat) :
    ∃ m, roundtrip common chunkdata slpptr memory memptr count 1 1 = some m ∧
      ∀ a, m a = memory a := by
  unfold roundtrip
  rw [transfern_contiguous]
  simp only [Bool.false_eq_true, if_false, Option.some_bind]
  rw [transfern_contiguous]
  simp only [if_true, Option.map_some']
  refine ⟨_, rfl, ?_⟩
  intro a
  cases hs : common.swap
  · simp only [Bool.false_eq_true, if_false]
    by_cases hin : memptr ≤ a ∧ a < memptr + common.typesize * count
    · have ha : a = memptr + (a - memptr) := by omega
      rw [ha, memcpy_inside _ _ _ _ _ _ (by omega), memcpy_inside _ _ _ _ _ _ (by omega)]
    · exact memcpy_outside _ _ _ _ _ _ (by omega)
  · simp only [if_true]
    exact NCZ_swapatomicdata_memcpy_swap _ _ _ _ _ _ _

/-! ## The element loops -/

theorem element_offset_lt_next {k j typesize slpstride b : Nat} (hkj : k + 1 ≤ j)
    (hstride : 0 < slpstride) (hb : b < typesize) :
    k * slpstride * typesize + b < j * slpstride * typesize := by
  have h1 : (k + 1) * slpstride * typesize ≤ j * slpstride * typesize :=
    Nat.mul_le_mul_right _ (Nat.mul_le_mul_right _ hkj)
  have h2 : (k + 1) * slpstride * typesize =
      k * slpstride * typesize + slpstride * typesize := by
    rw [Nat.add_mul, Nat.one_mul, Nat.add_mul]
  have h3 : typesize ≤ slpstride * typesize := Nat.le_mul_of_pos_left _ hstride
  omega

/-- What the element loop of the write branch leaves, started at its `k`-th iteration:
each chunk element `j*slpstride` with `k ≤ j` and `j*slpstride < count` holds memory
element `j*memstride`, and every other chunk byte is as it was. -/
theorem transfern_writeloop_spec (typesize count slpstride memstride : Nat) (memory : Buffer)
    (slpptr memptr : Nat) (hstride : 0 < slpstride) :
    ∀ (fuel k s m : Nat) (chunkdata chunk : Buffer),
      s = k * slpstride → m = k * memstride →
      transfern_writeloop typesize count slpstride memstride memory slpptr memptr
        fuel s m chunkdata = some chunk →
      (∀ j b, k ≤ j → j * slpstride < count → b < typesize →
        chunk (slpptr + (j * slpstride * typesize + b)) =
          memory (memptr + (j * memstride * typesize + b))) ∧
      (∀ a, (∀ j b, k ≤ j → j * slpstride < count → b < typesize →
          a ≠ slpptr + (j * slpstride * typesize + b)) → chunk a = chunkdata a) := by
  intro fuel
  induction fuel with
  | zero =>
    intro k s m chunkdata chunk hs _ h
    unfold transfern_writeloop at h
    split_ifs at h with hlt
    have hc : chunk = chunkdata := (Option.some.inj h).symm
    subst hc
    refine ⟨?_, fun a _ => rfl⟩
    intro j b hkj hj _
    have : k * slpstride ≤ j * slpstride := Nat.mul_le_mul_right _ hkj
    omega
  | succ fuel ih =>
    intro k s m chunkdata chunk hs hm h
    unfold transfern_writeloop at h
    split_ifs at h with hlt
    · have hs' : s + slpstride = (k + 1) * slpstride := by rw [hs, Nat.add_mul, Nat.one_mul]
      have hm' : m + memstride = (k + 1) * memstride := by rw [hm, Nat.add_mul, Nat.one_mul]
      obtain ⟨ih1, ih2⟩ := ih (k + 1) _ _ _ chunk hs' hm' h
      refine ⟨?_, ?_⟩
      · intro j b hkj hj hb
        rcases Nat.eq_or_lt_of_le hkj with heq | hlt'
        · subst heq
          rw [ih2]
          · have hcopy := memcpy_inside chunkdata (slpptr + s * typesize) memory
              (memptr + m * typesize) typesize b hb
            rw [hs, hm, Nat.add_assoc, Nat.add_assoc] at hcopy
            rw [hs, hm]
            exact hcopy
          · intro j' b' hkj' _ hb'
            have := @element_offset_lt_next k j' typesize slpstride b hkj' hstride hb
            omega
        · exact ih1 j b hlt' hj hb
      · intro a ha
        rw [ih2]
        · apply memcpy_outside
          rw [hs]
          by_contra hcon
          have hin : slpptr + k * slpstride * typesize ≤ a ∧
              a < slpptr + k * slpstride * typesize + typesize := by omega
          have hklt : k * slpstride < count := by rw [← hs]; exact hlt
          exact ha k (a - (slpptr + k * slpstride * typesize)) (Nat.le_refl k) hklt
            (by omega) (by omega)
        · intro j b hkj hj hb
          exact ha j b (by omega) hj hb
    · have hc : chunk = chunkdata := (Option.some.inj h).symm
      subst hc
      refine ⟨?_, fun a _ => rfl⟩
      intro j b hkj hj _
      have : k * slpstride ≤ j * slpstride := Nat.mul_le_mul_right _ hkj
      omega

/-- The element loop of the read branch leaves the memory as it was when every chunk
element it reads already equals the memory element it is stored to. -/
theorem transfern_readloop_same (typesize count slpstride memstride : Nat)
    (chunkdata : Buffer) (slpptr memptr : Nat) (memory0 : Buffer) :
    ∀ (fuel k s m : Nat) (memory result : Buffer),
      s = k * slpstride → m = k * memstride →
      (∀ a, memory a = memory0 a) →
      (∀ j b, k ≤ j → j * slpstride < count → b < typesize →
        chunkdata (slpptr + (j * slpstride * typesize + b)) =
          memory0 (memptr + (j * memstride * typesize + b))) →
      transfern_readloop typesize count slpstride memstride chunkdata slpptr memptr
        fuel s m memory = some result →
      ∀ a, result a = memory0 a := by
  intro fuel
  induction fuel with
  | zero =>
    intro k s m memory result _ _ hmem _ h
    unfold transfern_readloop at h
    split_ifs at h
    have hc : result = memory := (Option.some.inj h).symm
    subst hc
    exact hmem
  | succ fuel ih =>
    intro k s m memory result hs hm hmem hchunk h
    unfold transfern_readloop at h
    split_ifs at h with hlt
    · have hs' : s + slpstride = (k + 1) * slpstride := by rw [hs, Nat.add_mul, Nat.one_mul]
      have hm' : m + memstride = (k + 1) * memstride := by rw [hm, Nat.add_mul, Nat.one_mul]
      refine ih (k + 1) _ _ _ result hs' hm' ?_ ?_ h
      · intro a
        by_cases hin : memptr + m * typesize ≤ a ∧ a < memptr + m * typesize + typesize
        · have ha : a = memptr + m * typesize + (a - (memptr + m * typesize)) := by omega
          have hb : a - (memptr + m * typesize) < typesize := by omega
          have hklt : k * slpstride < count := by rw [← hs]; exact hlt
          have hgoal := hchunk k _ (Nat.le_refl k) hklt hb
          rw [← hs, ← hm, ← Nat.add_assoc, ← Nat.add_assoc] at hgoal
          rw [ha, memcpy_inside _ _ _ _ _ _ hb]
          exact hgoal
        · rw [memcpy_outside _ _ _ _ _ _ (by omega)]
          exact hmem a
      · intro j b hkj hj hb
        exact hchunk j b (by omega) hj hb
    · have hc : result = memory := (Option.some.inj h).symm
      subst hc
      exact hmem

/-- Where the round trip of one run does hold on the element-stride path: with a chunk
stride of 2 or more and the swap flag off, writing a run and reading it back returns and
leaves every byte of the memory as it was, whatever the memory stride. -/
theorem roundtrip_strided_noswap (common : Common) (hswap : common.swap = false)
    (chunkdata : Buffer) (slpptr : Nat) (memory : Buffer)
    (memptr count slpstride memstride : Nat) (hstride : 2 ≤ slpstride) :
    ∃ m, roundtrip common chunkdata slpptr memory memptr count slpstride memstride = some m ∧
      ∀ a, m a = memory a := by
  have hne : slpstride ≠ 1 := by omega
  have hpos : 0 < slpstride := by omega
  have hbound : count ≤ 0 + count * slpstride := by
    have := Nat.le_mul_of_pos_right count hpos
    omega
  have hw := transfern_writeloop_isSome common.typesize count slpstride memstride memory
    slpptr memptr count 0 0 chunkdata hbound
  obtain ⟨chunk, hchunk⟩ := Option.isSome_iff_exists.mp hw
  obtain ⟨hspec, -⟩ := transfern_writeloop_spec common.typesize count slpstride memstride
    memory slpptr memptr hpos count 0 0 0 chunkdata chunk (by simp) (by simp) hchunk
  have hr := transfern_readloop_isSome common.typesize count slpstride memstride chunk
    slpptr memptr count 0 0 memory hbound
  obtain ⟨result, hresult⟩ := Option.isSome_iff_exists.mp hr
  have hsame := transfern_readloop_same common.typesize count slpstride memstride chunk
    slpptr memptr memory count 0 0 0 memory result (by simp) (by simp) (fun _ => rfl)
    (fun j b _ hj hb => hspec j b (Nat.zero_le j) hj hb) hresult
  refine ⟨result, ?_, hsame⟩
  unfold roundtrip transfern
  simp [hswap, hne, hchunk, hresult]

/-! ## The fill synthesizer -/

/-- What a successful `NCZ_projectslices` leaves in `common`: the two length vectors it
was given, the shape vector accumulated from the projections, and the projections. -/
theorem NCZ_projectslices_ok {σ Odom : Type} (env : Env σ Odom) (dimlens chunklens : Nat → Nat)
    (slices : Nat → NCZSlice) (common0 common : Common) (stat : Int) (odom : Odom)
    (h : NCZ_projectslices env dimlens chunklens slices common0 =
      Run.ret (stat, common, some odom)) :
    stat = NC_NOERR ∧
    ∃ allprojections,
      common = { common0 with
        dimlens := dimlens, chunklens := chunklens,
        shape := fun r => if r < common0.rank then shapeOf (allprojections r)
                          else common0.shape r,
        allprojections := some allprojections } := by
  unfold NCZ_projectslices at h
  dsimp only at h
  split_ifs at h
  all_goals try (simp at h; done)
  split at h
  · simp at h
  · simp only [Run.ret.injEq, Prod.mk.injEq, Option.some.injEq] at h
    exact ⟨h.1.symm, _, h.2.1.symm⟩

theorem iswholevar_eq_one_iff (common : Common) (slices : Nat → NCZSlice) :
    iswholevar common slices = 1 ↔ WholeVar common slices := by
  unfold iswholevar WholeVar
  split_ifs with h1 h2
  · simp only [List.any_eq_true, List.mem_range, Bool.or_eq_true, decide_eq_true_eq] at h1
    obtain ⟨i, hi, hbad⟩ := h1
    constructor
    · intro h
      exact absurd h (by decide)
    · intro h
      have := h i hi
      rcases hbad with (hbad | hbad) | hbad
      · exact absurd this.1 hbad
      · exact absurd this.2.1 hbad
      · exact absurd this.2.2.1 hbad
  · simp only [List.any_eq_true, List.mem_range, decide_eq_true_eq] at h2
    obtain ⟨i, hi, hbad⟩ := h2
    constructor
    · intro h
      exact absurd h (by decide)
    · intro h
      exact absurd (h i hi).2.2.2 hbad
  · simp only [List.any_eq_true, List.mem_range, Bool.or_eq_true, decide_eq_true_eq,
      not_exists, not_and, not_or, not_not] at h1 h2
    constructor
    · intro _ i hi
      exact ⟨(h1 i hi).1.1, (h1 i hi).1.2, (h1 i hi).2, h2 i hi⟩
    · intro _
      rfl

theorem iswholevar_zero_or_one (common : Common) (slices : Nat → NCZSlice) :
    iswholevar common slices = 0 ∨ iswholevar common slices = 1 := by
  unfold iswholevar
  split_ifs <;> simp

/-- After a successful `NCZ_projectslices`, `NCZ_transfer` is its whole-variable branch
when `iswholevar` answers non-zero and its chunk loop otherwise; the test sees the
lengths the caller's context had. -/
theorem NCZ_transfer_dispatch {σ Odom : Type} (env : Env σ Odom) (fuel : Nat)
    (common0 : Common) (slices : Nat → NCZSlice) (st : State σ) (common : Common)
    (chunkodom : Odom)
    (hps : NCZ_projectslices env common0.dimlens common0.chunklens slices common0 =
      Run.ret (NC_NOERR, common, some chunkodom)) :
    ∃ allprojections, common.allprojections = some allprojections ∧
      iswholevar common slices = iswholevar common0 slices ∧
      common.reading = common0.reading ∧ common.swap = common0.swap ∧
      common.typesize = common0.typesize ∧ common.chunkcount = common0.chunkcount ∧
      NCZ_transfer env fuel common0 slices st =
        if iswholevar common0 slices ≠ 0 then NCZ_transfer_wholevar env common chunkodom st
        else NCZ_transfer_loop env common allprojections fuel fuel chunkodom 0 st := by
  obtain ⟨-, ap, hc⟩ := NCZ_projectslices_ok env _ _ slices common0 common _ chunkodom hps
  have hw : iswholevar common slices = iswholevar common0 slices := by
    rw [hc]
    rfl
  refine ⟨ap, by rw [hc], hw, by rw [hc], by rw [hc], by rw [hc], by rw [hc], ?_⟩
  unfold NCZ_transfer
  rw [hps]
  simp only [NC_NOERR, ne_eq, not_true_eq_false, if_false]
  rw [hw]
  rw [hc]


/-! ## The chunk reader's status -/

/-- The whole-variable transfer returns, with the status it was given; the chunk and
the memory it leaves are those of `transfern` with both strides 1. -/
theorem NCZ_transfer_wholevar_copy_ret {σ : Type} (common : Common) (stat : Int)
    (chunkdata : Nat) (st : State σ) :
    ∃ chunk memory,
      transfern common (st.chunks chunkdata) 0 st.memory 0 common.chunkcount 1 1 =
        some (chunk, memory) ∧
      NCZ_transfer_wholevar_copy common stat chunkdata st =
        Run.ret (stat,
          { (st.setChunk chunkdata chunk) with
            memory := memory,
            trace := st.trace ++ [Event.transfer chunkdata 0 0 common.chunkcount 1 1] }) := by
  have h : ∃ p, transfern common (st.chunks chunkdata) 0 st.memory 0 common.chunkcount 1 1 =
      some p := ⟨_, transfern_contiguous common _ 0 _ 0 _⟩
  obtain ⟨⟨chunk, memory⟩, hp⟩ := h
  refine ⟨chunk, memory, hp, ?_⟩
  unfold NCZ_transfer_wholevar_copy
  rw [hp]

/-- C3.  A NOT_FOUND status from the chunk reader is not an error.  At each of the three
places where the reader is called (`NCZ_transferscalar`, the whole-variable branch of
`NCZ_transfer`, an iteration of its chunk loop followed by the rest of the loop), when
the reader has returned `NC_ENOTFOUND` and `NCZ_fillchunk` returns `NC_NOERR`, what
follows is what follows a reader status `NC_NOERR` in the state the fill has left (the
same chunk address, the chunk holding the fill content), final status included; in
`NCZ_transferscalar` and in the whole-variable branch that status is `NC_NOERR`. -/
theorem notfound_continues_as_found {σ Odom : Type} (env : Env σ Odom) (common : Common)
    (chunkdata : Nat) (st : State σ)
    (hfill : (NCZ_fillchunk env.malloc_fillchunk chunkdata common st).1 = NC_NOERR)
    (walkfuel : Nat) (rest : Odom → Nat → State σ → Run (Int × State σ))
    (chunkodom : Odom) (slpslices memslices : List NCZSlice) :
    NCZ_transferscalar_after env.malloc_fillchunk common NC_ENOTFOUND chunkdata st =
      NCZ_transferscalar_after env.malloc_fillchunk common NC_NOERR chunkdata
        (NCZ_fillchunk env.malloc_fillchunk chunkdata common st).2 ∧
    (NCZ_transferscalar_after env.malloc_fillchunk common NC_ENOTFOUND chunkdata st).1 =
      NC_NOERR ∧
    NCZ_transfer_wholevar_after env.malloc_fillchunk common NC_ENOTFOUND chunkdata st =
      NCZ_transfer_wholevar_after env.malloc_fillchunk common NC_NOERR chunkdata
        (NCZ_fillchunk env.malloc_fillchunk chunkdata common st).2 ∧
    (∃ st', NCZ_transfer_wholevar_after env.malloc_fillchunk common NC_ENOTFOUND chunkdata st =
      Run.ret (NC_NOERR, st')) ∧
    NCZ_transfer_iteration_after env common walkfuel rest chunkodom slpslices memslices
        NC_ENOTFOUND chunkdata st =
      NCZ_transfer_iteration_after env common walkfuel rest chunkodom slpslices memslices
        NC_NOERR chunkdata (NCZ_fillchunk env.malloc_fillchunk chunkdata common st).2 := by
  have h0 : (NCZ_fillchunk env.malloc_fillchunk chunkdata common st).1 = 0 := hfill
  refine ⟨?_, ?_, ?_, ?_, ?_⟩
  · simp [NCZ_transferscalar_after, h0, NC_NOERR, NC_ENOTFOUND]
  · simp [NCZ_transferscalar_after, h0, NC_NOERR]
  · simp [NCZ_transfer_wholevar_after, h0, NC_NOERR, NC_ENOTFOUND]
  · obtain ⟨chunk, memory, -, h⟩ := NCZ_transfer_wholevar_copy_ret common 0 chunkdata
      (NCZ_fillchunk env.malloc_fillchunk chunkdata common st).2
    have hstep : NCZ_transfer_wholevar_after env.malloc_fillchunk common NC_ENOTFOUND chunkdata
        st = NCZ_transfer_wholevar_copy common 0 chunkdata
          (NCZ_fillchunk env.malloc_fillchunk chunkdata common st).2 := by
      simp [NCZ_transfer_wholevar_after, h0]
    rw [hstep, h]
    exact ⟨_, rfl⟩
  · simp [NCZ_transfer_iteration_after, h0, NC_NOERR, NC_ENOTFOUND]

/-- C3 at a concrete state: the chunk at address 1 is missing, no fill value is
configured, the rest of the chunk loop is the real loop with 3 more iterations. -/
theorem notfound_continues_as_found_witness :
    (NCZ_fillchunk (exampleEnv NC_ENOTFOUND).malloc_fillchunk 1
        (exampleCommon true false 1 none) (exampleState [] [7, 7] 10)).1 = NC_NOERR ∧
    (NCZ_transferscalar_after (exampleEnv NC_ENOTFOUND).malloc_fillchunk
        (exampleCommon true false 1 none) NC_ENOTFOUND 1 (exampleState [] [7, 7] 10)).1 =
      NC_NOERR ∧
    NCZ_transfer_iteration_after (exampleEnv NC_ENOTFOUND) (exampleCommon true false 1 none) 5
        (NCZ_transfer_loop (exampleEnv NC_ENOTFOUND) (exampleCommon true false 1 none)
          (fun _ => { range := { start := 0, stop := 1 }, count := 1,
                      projections := fun _ => default }) 5 3)
        (0, 1) [exampleSlices 0] [exampleSlices 0] NC_ENOTFOUND 1
        (exampleState [] [7, 7] 10) =
      NCZ_transfer_iteration_after (exampleEnv NC_ENOTFOUND) (exampleCommon true false 1 none) 5
        (NCZ_transfer_loop (exampleEnv NC_ENOTFOUND) (exampleCommon true false 1 none)
          (fun _ => { range := { start := 0, stop := 1 }, count := 1,
                      projections := fun _ => default }) 5 3)
        (0, 1) [exampleSlices 0] [exampleSlices 0] NC_NOERR 1
        (NCZ_fillchunk (exampleEnv NC_ENOTFOUND).malloc_fillchunk 1
          (exampleCommon true false 1 none) (exampleState [] [7, 7] 10)).2 :=
  have h := notfound_continues_as_found (exampleEnv NC_ENOTFOUND)
    (exampleCommon true false 1 none) 1 (exampleState [] [7, 7] 10) (by decide) 5
    (NCZ_transfer_loop (exampleEnv NC_ENOTFOUND) (exampleCommon true false 1 none)
      (fun _ => { range := { start := 0, stop := 1 }, count := 1,
                  projections := fun _ => default }) 5 3)
    (0, 1) [exampleSlices 0] [exampleSlices 0]
  ⟨by decide, h.2.1, h.2.2.2.2⟩

/-- C7.  The whole-variable fast path is chosen exactly when it applies.  `iswholevar`
returns 1 if and only if in every dimension below the rank the slice starts at 0, stops
at the dimension length and has stride 1 and the dimension length equals the chunk
length; otherwise it returns 0.  Once `NCZ_projectslices` has succeeded, `NCZ_transfer`
is its whole-variable branch in the first case and its chunk loop in the second. -/
theorem iswholevar_iff_wholevar {σ Odom : Type} (env : Env σ Odom) (fuel : Nat)
    (common0 : Common) (slices : Nat → NCZSlice) (st : State σ) (common : Common)
    (chunkodom : Odom)
    (hps : NCZ_projectslices env common0.dimlens common0.chunklens slices common0 =
      Run.ret (NC_NOERR, common, some chunkodom)) :
    (iswholevar common0 slices = 1 ↔ WholeVar common0 slices) ∧
    (¬ WholeVar common0 slices → iswholevar common0 slices = 0) ∧
    iswholevar common slices = iswholevar common0 slices ∧
    (WholeVar common0 slices →
      NCZ_transfer env fuel common0 slices st =
        NCZ_transfer_wholevar env common chunkodom st) ∧
    (¬ WholeVar common0 slices →
      ∃ allprojections, common.allprojections = some allprojections ∧
        NCZ_transfer env fuel common0 slices st =
          NCZ_transfer_loop env common allprojections fuel fuel chunkodom 0 st) := by
  obtain ⟨ap, hap, hw, -, -, -, -, hd⟩ :=
    NCZ_transfer_dispatch env fuel common0 slices st common chunkodom hps
  have hzero : ¬ WholeVar common0 slices → iswholevar common0 slices = 0 := by
    intro hn
    rcases iswholevar_zero_or_one common0 slices with h | h
    · exact h
    · exact absurd ((iswholevar_eq_one_iff common0 slices).mp h) hn
  refine ⟨iswholevar_eq_one_iff common0 slices, hzero, hw, ?_, ?_⟩
  · intro hwv
    rw [hd, (iswholevar_eq_one_iff common0 slices).mpr hwv]
    simp
  · intro hn
    refine ⟨ap, hap, ?_⟩
    rw [hd, hzero hn]
    simp

/-- C7 at the variable of length 10 in one chunk of 10 with the full-range slice: the
fast path applies and is taken. -/
theorem iswholevar_iff_wholevar_witness :
    ∃ common chunkodom,
      NCZ_projectslices (exampleEnv NC_NOERR) (exampleCommon true false 1 none).dimlens
        (exampleCommon true false 1 none).chunklens exampleSlices
        (exampleCommon true false 1 none) = Run.ret (NC_NOERR, common, some chunkodom) ∧
      iswholevar (exampleCommon true false 1 none) exampleSlices = 1 ∧
      NCZ_transfer (exampleEnv NC_NOERR) 5 (exampleCommon true false 1 none) exampleSlices
          (exampleState [] [1, 2, 3] 10) =
        NCZ_transfer_wholevar (exampleEnv NC_NOERR) common chunkodom
          (exampleState [] [1, 2, 3] 10) := by
  refine ⟨_, _, rfl, ?_⟩
  have hwv : WholeVar (exampleCommon true false 1 none) exampleSlices :=
    fun i _ => ⟨rfl, rfl, rfl, rfl⟩
  have h := iswholevar_iff_wholevar (exampleEnv NC_NOERR) 5 (exampleCommon true false 1 none)
    exampleSlices (exampleState [] [1, 2, 3] 10) _ _ rfl
  exact ⟨h.1.mpr hwv, h.2.2.2.1 hwv⟩

/-- C8.  Effect of the whole-variable fast path.  When `NCZ_projectslices` has succeeded,
the slices cover the whole variable and the variable is one chunk, and the reader
answers `NC_NOERR`, `NCZ_transfer` returns `NC_NOERR` after exactly one reader call and
exactly one call of `transfern`, of `chunkcount` elements with both strides 1 at offset 0
of the chunk and offset 0 of the memory.  With swap off, on read the first
`chunkcount*typesize` bytes of memory become the chunk's and the chunk keeps its bytes;
on write the first `chunkcount*typesize` bytes of the chunk become memory's and memory
keeps its bytes. -/
theorem NCZ_transfer_wholevar_effect {σ Odom : Type} (env : Env σ Odom) (fuel : Nat)
    (common0 : Common) (slices : Nat → NCZSlice) (st : State σ) (common : Common)
    (chunkodom : Odom)
    (hps : NCZ_projectslices env common0.dimlens common0.chunklens slices common0 =
      Run.ret (NC_NOERR, common, some chunkodom))
    (hwhole : WholeVar common0 slices)
    (hread : (env.read st.source st.cache st.chunks (env.nczodom_indices chunkodom) 0).stat =
      NC_NOERR) :
    ∃ st', NCZ_transfer env fuel common0 slices st = Run.ret (NC_NOERR, st') ∧
      st'.trace = st.trace ++
        [Event.read (env.nczodom_indices chunkodom),
         Event.transfer
          (env.read st.source st.cache st.chunks (env.nczodom_indices chunkodom) 0).chunkdata
          0 0 common0.chunkcount 1 1] ∧
      (common0.swap = false → common0.reading = true →
        (∀ a, a < common0.chunkcount * common0.typesize →
          st'.memory a =
            (env.read st.source st.cache st.chunks (env.nczodom_indices chunkodom) 0).chunks
              (env.read st.source st.cache st.chunks
                (env.nczodom_indices chunkodom) 0).chunkdata a) ∧
        (∀ a,
          st'.chunks
            (env.read st.source st.cache st.chunks (env.nczodom_indices chunkodom) 0).chunkdata
            a =
          (env.read st.source st.cache st.chunks (env.nczodom_indices chunkodom) 0).chunks
            (env.read st.source st.cache st.chunks
              (env.nczodom_indices chunkodom) 0).chunkdata a)) ∧
      (common0.swap = false → common0.reading = false →
        (∀ a, a < common0.chunkcount * common0.typesize →
          st'.chunks
            (env.read st.source st.cache st.chunks (env.nczodom_indices chunkodom) 0).chunkdata
            a = st.memory a) ∧
        st'.memory = st.memory) := by
  obtain ⟨ap, -, -, hrd, hsw, hts, hcc, hd⟩ :=
    NCZ_transfer_dispatch env fuel common0 slices st common chunkodom hps
  have hone := (iswholevar_eq_one_iff common0 slices).mpr hwhole
  have hT : NCZ_transfer env fuel common0 slices st =
      NCZ_transfer_wholevar_copy common NC_NOERR
        (env.read st.source st.cache st.chunks (env.nczodom_indices chunkodom) 0).chunkdata
        (st.afterRead (env.nczodom_indices chunkodom)
          (env.read st.source st.cache st.chunks (env.nczodom_indices chunkodom) 0)) := by
    rw [hd, hone]
    simp only [ne_eq, one_ne_zero, not_false_eq_true, if_true]
    unfold NCZ_transfer_wholevar
    simp only [NCZ_transfer_wholevar_after, hread]
    rw [if_neg (by decide)]
    simp only [if_true]
  obtain ⟨chunk, memory, htr, hcopy⟩ := NCZ_transfer_wholevar_copy_ret common NC_NOERR
    (env.read st.source st.cache st.chunks (env.nczodom_indices chunkodom) 0).chunkdata
    (st.afterRead (env.nczodom_indices chunkodom)
      (env.read st.source st.cache st.chunks (env.nczodom_indices chunkodom) 0))
  rw [transfern_contiguous, hrd, hsw, hts, hcc] at htr
  have hmul : common0.typesize * common0.chunkcount = common0.chunkcount * common0.typesize :=
    Nat.mul_comm _ _
  refine ⟨_, hT.trans hcopy, ?_, ?_, ?_⟩
  · simp [State.afterRead, State.setChunk, hcc]
  · intro hswap hreading
    simp only [hswap, hreading, if_true, Bool.false_eq_true, if_false, Option.some.injEq,
      Prod.mk.injEq] at htr
    obtain ⟨hchunk, hmem⟩ := htr
    refine ⟨?_, ?_⟩
    · intro a ha
      show memory a = _
      rw [← hmem, hmul]
      exact memcpy_zero_inside _ _ _ _ ha
    · intro a
      simp [State.setChunk, ← hchunk, State.afterRead]
  · intro hswap hreading
    simp only [hswap, hreading, Bool.false_eq_true, if_false, Option.some.injEq,
      Prod.mk.injEq] at htr
    obtain ⟨hchunk, hmem⟩ := htr
    refine ⟨?_, ?_⟩
    · intro a ha
      simp only [State.setChunk, if_true]
      rw [← hchunk, hmul]
      exact memcpy_zero_inside _ _ _ _ ha
    · show memory = _
      rw [← hmem]
      rfl

/-- C8 at the scenario of the spec: a 1-D variable of length 10 with chunk length 10 and
a full-range read of 1-byte elements: one reader call, one transfer of 10 elements, and
the memory ends with the 10 bytes of the chunk. -/
theorem NCZ_transfer_wholevar_effect_witness :
    WholeVar (exampleCommon true false 1 none) exampleSlices ∧
    ((exampleEnv NC_NOERR).read () { chunksize := 10, fillchunk := none }
      (exampleState [] [1, 2, 3, 4, 5, 6, 7, 8, 9, 10] 10).chunks [0] 0).stat = NC_NOERR ∧
    ∃ st', NCZ_transfer (exampleEnv NC_NOERR) 5 (exampleCommon true false 1 none) exampleSlices
        (exampleState [] [1, 2, 3, 4, 5, 6, 7, 8, 9, 10] 10) = Run.ret (NC_NOERR, st') ∧
      st'.trace = [Event.read [0], Event.transfer 1 0 0 10 1 1] ∧
      ∀ a, a < 10 → st'.memory a = Buffer.ofList [1, 2, 3, 4, 5, 6, 7, 8, 9, 10] a := by
  have hwv : WholeVar (exampleCommon true false 1 none) exampleSlices :=
    fun i _ => ⟨rfl, rfl, rfl, rfl⟩
  obtain ⟨st', h1, h2, h3, -⟩ := NCZ_transfer_wholevar_effect (exampleEnv NC_NOERR) 5
    (exampleCommon true false 1 none) exampleSlices
    (exampleState [] [1, 2, 3, 4, 5, 6, 7, 8, 9, 10] 10) _ (0, 1) rfl hwv rfl
  exact ⟨hwv, rfl, st', h1, h2, fun a ha => (h3 rfl rfl).1 a ha⟩

/-! ## Scalar variables -/

/-- C19.  Direction frame.  `transfern` returns unless the chunk stride is 0 with a
positive count; whenever it returns, in read direction the chunk buffer is the one it was
given, byte for byte, and in write direction the caller's memory buffer is the one it was
given, whether or not the swap flag is set. -/
theorem transfern_direction_frame (common : Common) (chunkdata : Buffer) (slpptr : Nat)
    (memory : Buffer) (memptr count slpstride memstride : Nat) :
    (transfern common chunkdata slpptr memory memptr count slpstride memstride = none ↔
      slpstride = 0 ∧ 0 < count) ∧
    ∀ chunk' memory',
      transfern common chunkdata slpptr memory memptr count slpstride memstride =
        some (chunk', memory') →
      (common.reading = true → chunk' = chunkdata) ∧
      (common.reading = false → memory' = memory) := by
  refine ⟨transfern_eq_none_iff common chunkdata slpptr memory memptr count slpstride
    memstride, ?_⟩
  intro chunk' memory' h
  unfold transfern at h
  dsimp only at h
  cases hr : common.reading
  · rw [hr] at h
    simp only [Bool.false_eq_true, if_false, Option.map_eq_some', Prod.mk.injEq] at h
    obtain ⟨c, -, -, hm⟩ := h
    exact ⟨fun hf => absurd hf (by decide), fun _ => hm.symm⟩
  · rw [hr] at h
    simp only [if_true, Option.map_eq_some', Prod.mk.injEq] at h
    obtain ⟨m, -, hc, -⟩ := h
    exact ⟨fun _ => hc.symm, fun hf => absurd hf (by decide)⟩

/-- C18 (the code breaks the frame).  A write run with elements of 2 bytes, count 4,
chunk stride 2, memory stride 1 and swap on, from memory bytes 1,2,3,4 into a chunk
holding 10..17: the written elements are chunk elements 0 and 2, and chunk elements 1
and 3, which are not written, end byte-reversed (13,12 and 17,16 where they were 12,13
and 16,17), because the swap runs over all `typesize*count` bytes. -/
theorem transfern_write_frame_broken :
    (transfern (exampleCommon false true 2 none)
        (Buffer.ofList [10, 11, 12, 13, 14, 15, 16, 17]) 0 (Buffer.ofList [1, 2, 3, 4]) 0
        4 2 1).map (fun r => [r.1 0, r.1 1, r.1 2, r.1 3, r.1 4, r.1 5, r.1 6, r.1 7]) =
      some [2, 1, 13, 12, 4, 3, 17, 16] := by
  decide

/-- Where the frame of a write run does hold: with the swap flag off and a positive
chunk stride, every chunk byte outside the written elements (the `count` elements of the
block when the chunk stride is 1, the elements `k*slpstride` with `k*slpstride < count`
otherwise) is as it was. -/
theorem transfern_write_frame_noswap (common : Common) (hreading : common.reading = false)
    (hswap : common.swap = false) (chunkdata : Buffer) (slpptr : Nat) (memory : Buffer)
    (memptr count slpstride memstride : Nat) (hstride : 0 < slpstride)
    (chunk' memory' : Buffer)
    (h : transfern common chunkdata slpptr memory memptr count slpstride memstride =
      some (chunk', memory')) (a : Nat)
    (ha : ∀ k b, k * slpstride < count → b < common.typesize →
      a ≠ slpptr + (k * slpstride * common.typesize + b)) :
    chunk' a = chunkdata a := by
  unfold transfern at h
  dsimp only at h
  rw [hreading, hswap] at h
  simp only [Bool.false_eq_true, if_false, Option.map_eq_some', Prod.mk.injEq] at h
  obtain ⟨c, hc, hcc, -⟩ := h
  subst hcc
  by_cases h1 : slpstride = 1
  · subst h1
    rw [if_pos rfl] at hc
    have hc' := (Option.some.inj hc).symm
    subst hc'
    apply memcpy_outside
    by_contra hcon
    have hlt : a - slpptr < common.typesize * count := by omega
    obtain ⟨e, b, he, hb, hi⟩ := element_byte_of_lt hlt
    exact ha e b (by omega) hb (by rw [Nat.mul_one]; omega)
  · rw [if_neg h1] at hc
    obtain ⟨-, hframe⟩ := transfern_writeloop_spec common.typesize count slpstride memstride
      memory slpptr memptr hstride count 0 0 0 chunkdata c (by simp) (by simp) hc
    exact hframe a (fun j b _ hj hb => ha j b hj hb)

/-- The element loops run once for each `k` with `k*slpstride < count`: there are
`(count + slpstride - 1) / slpstride` of them. -/
theorem lt_elements_iff {k count slpstride : Nat} (hstride : 0 < slpstride) :
    k < (count + slpstride - 1) / slpstride ↔ k * slpstride < count := by
  rw [Nat.lt_iff_add_one_le, Nat.le_div_iff_mul_le hstride, Nat.add_mul, Nat.one_mul]
  omega

theorem transfern_readloop_eq_fold (typesize count slpstride memstride : Nat)
    (chunkdata : Buffer) (slpptr memptr : Nat) (hstride : 0 < slpstride) :
    ∀ (fuel k s m : Nat) (memory : Buffer),
      s = k * slpstride → m = k * memstride → count ≤ s + fuel * slpstride →
      transfern_readloop typesize count slpstride memstride chunkdata slpptr memptr
        fuel s m memory =
      some ((List.range' k ((count + slpstride - 1) / slpstride - k)).foldl
        (fun b j => memcpy b (memptr + j * memstride * typesize) chunkdata
          (slpptr + j * slpstride * typesize) typesize) memory) := by
  intro fuel
  induction fuel with
  | zero =>
    intro k s m memory hs _ hfuel
    have hge : ¬ k * slpstride < count := by omega
    have hk : (count + slpstride - 1) / slpstride - k = 0 := by
      have := (not_congr (@lt_elements_iff k count slpstride hstride)).mpr hge
      omega
    have hlt : ¬ s < count := by omega
    simp [transfern_readloop, hlt, hk]
  | succ fuel ih =>
    intro k s m memory hs hm hfuel
    unfold transfern_readloop
    by_cases hlt : s < count
    · rw [if_pos hlt]
      have hs' : s + slpstride = (k + 1) * slpstride := by rw [hs, Nat.add_mul, Nat.one_mul]
      have hm' : m + memstride = (k + 1) * memstride := by rw [hm, Nat.add_mul, Nat.one_mul]
      have hfuel' : count ≤ s + slpstride + fuel * slpstride := by
        rw [Nat.add_mul, Nat.one_mul] at hfuel
        omega
      rw [ih (k + 1) _ _ _ hs' hm' hfuel']
      have hk : k < (count + slpstride - 1) / slpstride :=
        (lt_elements_iff hstride).mpr (by rw [← hs]; exact hlt)
      have hsplit : (count + slpstride - 1) / slpstride - k =
          ((count + slpstride - 1) / slpstride - (k + 1)) + 1 := by omega
      rw [hsplit, List.range'_succ, List.foldl_cons, hs, hm]
    · rw [if_neg hlt]
      have hge : ¬ k * slpstride < count := by rw [← hs]; exact hlt
      have hk : (count + slpstride - 1) / slpstride - k = 0 := by
        have := (not_congr (@lt_elements_iff k count slpstride hstride)).mpr hge
        omega
      simp [hk]

theorem transfern_writeloop_eq_fold (typesize count slpstride memstride : Nat)
    (memory : Buffer) (slpptr memptr : Nat) (hstride : 0 < slpstride) :
    ∀ (fuel k s m : Nat) (chunkdata : Buffer),
      s = k * slpstride → m = k * memstride → count ≤ s + fuel * slpstride →
      transfern_writeloop typesize count slpstride memstride memory slpptr memptr
        fuel s m chunkdata =
      some ((List.range' k ((count + slpstride - 1) / slpstride - k)).foldl
        (fun b j => memcpy b (slpptr + j * slpstride * typesize) memory
          (memptr + j * memstride * typesize) typesize) chunkdata) := by
  intro fuel
  induction fuel with
  | zero =>
    intro k s m chunkdata hs _ hfuel
    have hge : ¬ k * slpstride < count := by omega
    have hk : (count + slpstride - 1) / slpstride - k = 0 := by
      have := (not_congr (@lt_elements_iff k count slpstride hstride)).mpr hge
      omega
    have hlt : ¬ s < count := by omega
    simp [transfern_writeloop, hlt, hk]
  | succ fuel ih =>
    intro k s m chunkdata hs hm hfuel
    unfold transfern_writeloop
    by_cases hlt : s < count
    · rw [if_pos hlt]
      have hs' : s + slpstride = (k + 1) * slpstride := by rw [hs, Nat.add_mul, Nat.one_mul]
      have hm' : m + memstride = (k + 1) * memstride := by rw [hm, Nat.add_mul, Nat.one_mul]
      have hfuel' : count ≤ s + slpstride + fuel * slpstride := by
        rw [Nat.add_mul, Nat.one_mul] at hfuel
        omega
      rw [ih (k + 1) _ _ _ hs' hm' hfuel']
      have hk : k < (count + slpstride - 1) / slpstride :=
        (lt_elements_iff hstride).mpr (by rw [← hs]; exact hlt)
      have hsplit : (count + slpstride - 1) / slpstride - k =
          ((count + slpstride - 1) / slpstride - (k + 1)) + 1 := by omega
      rw [hsplit, List.range'_succ, List.foldl_cons, hs, hm]
    · rw [if_neg hlt]
      have hge : ¬ k * slpstride < count := by rw [← hs]; exact hlt
      have hk : (count + slpstride - 1) / slpstride - k = 0 := by
        have := (not_congr (@lt_elements_iff k count slpstride hstride)).mpr hge
        omega
      simp [hk]

theorem copyElements_succ (typesize : Nat) (dst : Buffer) (dptr dstride : Nat) (src : Buffer)
    (sptr sstride n : Nat) :
    copyElements typesize dst dptr dstride src sptr sstride (n + 1) =
      memcpy (copyElements typesize dst dptr dstride src sptr sstride n)
        (dptr + n * dstride * typesize) src (sptr + n * sstride * typesize) typesize := by
  simp [copyElements, List.range_succ, List.foldl_append]

/-- One `memcpy` of `typesize*count` bytes is `count` element copies with both strides
1. -/
theorem memcpy_eq_copyElements (typesize : Nat) (dst : Buffer) (dptr : Nat) (src : Buffer)
    (sptr count : Nat) (a : Nat) :
    memcpy dst dptr src sptr (typesize * count) a =
      copyElements typesize dst dptr 1 src sptr 1 count a := by
  induction count with
  | zero => simp [copyElements, memcpy]
  | succ c ih =>
    rw [copyElements_succ]
    have hmul : typesize * (c + 1) = typesize * c + typesize := Nat.mul_succ _ _
    have hc : c * 1 * typesize = typesize * c := by rw [Nat.mul_one, Nat.mul_comm]
    rw [hmul, hc]
    by_cases hlast : dptr + typesize * c ≤ a ∧ a < dptr + typesize * c + typesize
    · have h1 : dptr ≤ a ∧ a < dptr + (typesize * c + typesize) := by omega
      simp only [memcpy, if_pos hlast, if_pos h1]
      congr 1
      omega
    · have hout : a < dptr + typesize * c ∨ dptr + typesize * c + typesize ≤ a := by omega
      rw [memcpy_outside _ _ _ _ _ _ hout, ← ih]
      by_cases hin : dptr ≤ a ∧ a < dptr + typesize * c
      · have h1 : dptr ≤ a ∧ a < dptr + (typesize * c + typesize) := by omega
        simp only [memcpy, if_pos hin, if_pos h1]
      · have h1 : ¬ (dptr ≤ a ∧ a < dptr + (typesize * c + typesize)) := by omega
        simp only [memcpy, if_neg hin, if_neg h1]

/-- C11 (the claim as stated fails).  A read run with elements of 1 byte, count 4, chunk
stride 2 and memory stride 1 from a chunk holding 1..6 into a zeroed memory: two elements
are copied, not four; memory element 2 stays 0 where the third copy would have stored
chunk element 4, which is 5. -/
theorem transfern_elements_counterexample :
    (transfern (exampleCommon true false 1 none) (Buffer.ofList [1, 2, 3, 4, 5, 6]) 0
        (Buffer.ofList []) 0 4 2 1).map (fun r => [r.2 0, r.2 1, r.2 2, r.2 3]) =
      some [1, 3, 0, 0] ∧
    Buffer.ofList [1, 2, 3, 4, 5, 6] (2 * 2) = 5 := by
  constructor <;> decide

/-- C11 (amended).  What a run transfers.  With a positive chunk stride, `transfern`
called with count `c` returns.  On the `memcpy` path (both strides 1 on read, chunk
stride 1 on write) it copies one block of `typesize*c` bytes, which is `c` element copies
with both strides 1.  On the element-stride path it makes one element copy for each `k`
with `k*slpstride < c`, in increasing `k`, that is `(c + slpstride - 1) / slpstride` of
them (`c` of them when the chunk stride is 1), the `k`-th between chunk element
`k*slpstride` and memory element `k*memstride`.  The swap, when set, follows the copy. -/
theorem transfern_elements (common : Common) (chunkdata : Buffer) (slpptr : Nat)
    (memory : Buffer) (memptr count slpstride memstride : Nat) (hstride : 0 < slpstride) :
    transfern common chunkdata slpptr memory memptr count slpstride memstride =
      some (if common.reading = true then
          (chunkdata,
            swapIf common.swap common.typesize count
              (if slpstride = 1 ∧ memstride = 1 then
                memcpy memory memptr chunkdata slpptr (common.typesize * count)
              else
                copyElements common.typesize memory memptr memstride chunkdata slpptr
                  slpstride ((count + slpstride - 1) / slpstride)) memptr)
        else
          (swapIf common.swap common.typesize count
              (if slpstride = 1 then
                memcpy chunkdata slpptr memory memptr (common.typesize * count)
              else
                copyElements common.typesize chunkdata slpptr slpstride memory memptr
                  memstride ((count + slpstride - 1) / slpstride)) slpptr,
           memory)) ∧
    (∀ (dst : Buffer) (dptr : Nat) (src : Buffer) (sptr a : Nat),
      memcpy dst dptr src sptr (common.typesize * count) a =
        copyElements common.typesize dst dptr 1 src sptr 1 count a) ∧
    (∀ k, k < (count + slpstride - 1) / slpstride ↔ k * slpstride < count) ∧
    (slpstride = 1 → (count + slpstride - 1) / slpstride = count) := by
  have hbound : count ≤ 0 + count * slpstride := by
    have := Nat.le_mul_of_pos_right count hstride
    omega
  refine ⟨?_, fun dst dptr src sptr a => memcpy_eq_copyElements _ _ _ _ _ _ _,
    fun k => lt_elements_iff hstride, ?_⟩
  · have hread := transfern_readloop_eq_fold common.typesize count slpstride memstride
      chunkdata slpptr memptr hstride count 0 0 0 memory (by simp) (by simp) hbound
    have hwrite := transfern_writeloop_eq_fold common.typesize count slpstride memstride
      memory slpptr memptr hstride count 0 0 0 chunkdata (by simp) (by simp) hbound
    rw [Nat.sub_zero, ← List.range_eq_range'] at hread hwrite
    unfold transfern
    dsimp only
    cases hr : common.reading
    · simp only [Bool.false_eq_true, if_false]
      by_cases h1 : slpstride = 1
      · simp only [h1, if_true, Option.map_some', swapIf]
      · simp only [h1, if_false, hwrite, Option.map_some', swapIf, copyElements]
    · simp only [if_true]
      by_cases h1 : slpstride = 1 ∧ memstride = 1
      · simp only [h1, and_self, if_true, Option.map_some', swapIf]
      · simp only [h1, if_false, hread, Option.map_some', swapIf, copyElements]
  · intro h1
    subst h1
    simp

/-- C11 (amended) at a concrete run: a read with count 4, chunk stride 2 and memory stride
1 makes `(4 + 2 - 1) / 2 = 2` element copies. -/
theorem transfern_elements_witness :
    0 < 2 ∧
    transfern (exampleCommon true false 1 none) (Buffer.ofList [1, 2, 3, 4, 5, 6]) 0
        (Buffer.ofList []) 0 4 2 1 =
      some (Buffer.ofList [1, 2, 3, 4, 5, 6],
        copyElements 1 (Buffer.ofList []) 0 1 (Buffer.ofList [1, 2, 3, 4, 5, 6]) 0 2 2) :=
  ⟨by decide,
    (transfern_elements (exampleCommon true false 1 none) (Buffer.ofList [1, 2, 3, 4, 5, 6]) 0
      (Buffer.ofList []) 0 4 2 1 (by decide)).1⟩

/-! ## Linear offsets do not alias -/

theorem rowMajor_lt_prod (R : Nat) (indices dimlens : Nat → Nat)
    (h : ∀ i, i < R → indices i < dimlens i) :
    rowMajor R indices dimlens < ∏ i in Finset.range R, dimlens i := by
  induction R with
  | zero => simp [rowMajor]
  | succ R ih =>
    rw [rowMajor_succ, Finset.prod_range_succ]
    have h1 := ih (fun i hi => h i (by omega))
    have h2 := h R (by omega)
    have h3 : (rowMajor R indices dimlens + 1) * dimlens R ≤
        (∏ i in Finset.range R, dimlens i) * dimlens R := Nat.mul_le_mul_right _ h1
    rw [Nat.add_mul, Nat.one_mul] at h3
    omega

theorem rowMajor_injective (R : Nat) (indices1 indices2 dimlens : Nat → Nat)
    (h1 : ∀ i, i < R → indices1 i < dimlens i) (h2 : ∀ i, i < R → indices2 i < dimlens i)
    (heq : rowMajor R indices1 dimlens = rowMajor R indices2 dimlens) :
    ∀ i, i < R → indices1 i = indices2 i := by
  induction R with
  | zero =>
    intro i hi
    omega
  | succ R ih =>
    rw [rowMajor_succ, rowMajor_succ] at heq
    have hb1 := h1 R (by omega)
    have hb2 := h2 R (by omega)
    have hpos : 0 < dimlens R := by omega
    have hmod : indices1 R = indices2 R := by
      have := congrArg (fun x => x % dimlens R) heq
      simp only [Nat.mul_add_mod_of_lt, Nat.add_comm (_ * dimlens R),
        Nat.add_mul_mod_self_right] at this
      rwa [Nat.mod_eq_of_lt hb1, Nat.mod_eq_of_lt hb2] at this
    have hdiv : rowMajor R indices1 dimlens = rowMajor R indices2 dimlens := by
      rw [hmod] at heq
      have := Nat.add_right_cancel heq
      exact Nat.eq_of_mul_eq_mul_right hpos this
    intro i hi
    rcases Nat.lt_succ_iff_lt_or_eq.mp hi with hlt | heq'
    · exact ih (fun j hj => h1 j (by omega)) (fun j hj => h2 j (by omega)) hdiv i hlt
    · rw [heq']
      exact hmod

/-- C20.  Linear offsets do not alias.  When the product of the `R` dimension lengths is
below 2^64 (the lengths are then positive as soon as an index fits below them), every
index vector with `indices[i] < dimlens[i]` for all `i < R` gives an offset below the
product of the lengths, and two such index vectors that differ in some position below `R`
give different offsets. -/
theorem NCZ_computelinearoffset_no_alias (R : Nat) (dimlens indices1 indices2 : Nat → Nat)
    (hprod : ∏ i in Finset.range R, dimlens i < 2 ^ 64)
    (h1 : ∀ i, i < R → indices1 i < dimlens i) (h2 : ∀ i, i < R → indices2 i < dimlens i) :
    NCZ_computelinearoffset R indices1 dimlens < ∏ i in Finset.range R, dimlens i ∧
    ((∃ i, i < R ∧ indices1 i ≠ indices2 i) →
      NCZ_computelinearoffset R indices1 dimlens ≠
        NCZ_computelinearoffset R indices2 dimlens) := by
  have hlt1 := rowMajor_lt_prod R indices1 dimlens h1
  have hlt2 := rowMajor_lt_prod R indices2 dimlens h2
  have e1 : NCZ_computelinearoffset R indices1 dimlens = rowMajor R indices1 dimlens := by
    rw [NCZ_computelinearoffset_mod, Nat.mod_eq_of_lt (by omega)]
  have e2 : NCZ_computelinearoffset R indices2 dimlens = rowMajor R indices2 dimlens := by
    rw [NCZ_computelinearoffset_mod, Nat.mod_eq_of_lt (by omega)]
  refine ⟨by rw [e1]; exact hlt1, ?_⟩
  rintro ⟨i, hi, hne⟩ heq
  rw [e1, e2] at heq
  exact hne (rowMajor_injective R indices1 indices2 dimlens h1 h2 heq i hi)

/-- C20 at a 4 x 5 x 6 array: the index vectors (1,2,3) and (1,3,2) give the offsets 45
and 50. -/
theorem NCZ_computelinearoffset_no_alias_witness :
    (∏ i in Finset.range 3, (fun i => [4, 5, 6].getD i 0) i) < 2 ^ 64 ∧
    (∀ i, i < 3 → (fun i => [1, 2, 3].getD i 0) i < (fun i => [4, 5, 6].getD i 0) i) ∧
    (∀ i, i < 3 → (fun i => [1, 3, 2].getD i 0) i < (fun i => [4, 5, 6].getD i 0) i) ∧
    NCZ_computelinearoffset 3 (fun i => [1, 2, 3].getD i 0) (fun i => [4, 5, 6].getD i 0) <
      ∏ i in Finset.range 3, (fun i => [4, 5, 6].getD i 0) i ∧
    NCZ_computelinearoffset 3 (fun i => [1, 2, 3].getD i 0) (fun i => [4, 5, 6].getD i 0) ≠
      NCZ_computelinearoffset 3 (fun i => [1, 3, 2].getD i 0) (fun i => [4, 5, 6].getD i 0) :=
  have h := NCZ_computelinearoffset_no_alias 3 (fun i => [4, 5, 6].getD i 0)
    (fun i => [1, 2, 3].getD i 0) (fun i => [1, 3, 2].getD i 0) (by decide) (by decide)
    (by decide)
  ⟨by decide, by decide, by decide, h.1, h.2 ⟨1, by decide, by decide⟩⟩

/-! ## The slices of the entry operation -/

/-- When the type registry rejects the type code, `NCZ_transferslice` goes to its exit
with the local `common` as the stack left it. -/
theorem NCZ_transferslice_badtype {σ Odom : Type} (env : Env σ Odom) (fuel : Nat)
    (var : NC_VAR_INFO_T) (reading : Bool) (start count stride : Nat → Nat) (typecode : Int)
    (st : State σ) (htype : (env.NC4_inq_atomic_type typecode).1 ≠ 0) :
    NCZ_transferslice env fuel var reading start count stride typecode st =
      NCZ_transferslice_done false env.stack_common
        (.ret ((env.NC4_inq_atomic_type typecode).1, st)) := by
  unfold NCZ_transferslice
  dsimp only
  rw [if_pos htype]

/-- When the type registry rejects the type code and the stack holds NULL in the two
pointer fields of the local `common` that `NCZ_clearcommon` releases, `NCZ_transferslice`
returns the status of the registry and leaves the state as it was. -/
theorem NCZ_transferslice_badtype_clean {σ Odom : Type} (env : Env σ Odom) (fuel : Nat)
    (var : NC_VAR_INFO_T) (reading : Bool) (start count stride : Nat → Nat) (typecode : Int)
    (st : State σ) (htype : (env.NC4_inq_atomic_type typecode).1 ≠ 0)
    (hproj : env.stack_common.allprojections = none)
    (hfill : env.stack_common.fillvalue = none) :
    NCZ_transferslice env fuel var reading start count stride typecode st =
      .ret ((env.NC4_inq_atomic_type typecode).1, st) := by
  rw [NCZ_transferslice_badtype env fuel var reading start count stride typecode st htype]
  simp [NCZ_transferslice_done, NCZ_clearcommon, hproj, hfill]

/-- When the type registry rejects the type code and the stack holds a non-NULL word in
one of the two pointer fields of the local `common`, `NCZ_transferslice` does not
return. -/
theorem NCZ_transferslice_badtype_dirty {σ Odom : Type} (env : Env σ Odom) (fuel : Nat)
    (var : NC_VAR_INFO_T) (reading : Bool) (start count stride : Nat → Nat) (typecode : Int)
    (st : State σ) (htype : (env.NC4_inq_atomic_type typecode).1 ≠ 0)
    (hdirty : env.stack_common.allprojections.isSome = true ∨
      env.stack_common.fillvalue.isSome = true) :
    NCZ_transferslice env fuel var reading start count stride typecode st = .abort := by
  rw [NCZ_transferslice_badtype env fuel var reading start count stride typecode st htype]
  rcases hdirty with h | h <;> simp [NCZ_transferslice_done, NCZ_clearcommon, h]

/-- C13 (the code departs from the claim).  With a type registry that rejects the type
code 99 with the status -45, and a stack that holds a non-zero word where the `fillvalue`
pointer of the local `common` lies, `NCZ_transferslice` does not return the status of
the lookup: it reaches `NCZ_clearcommon` before the `memset` of `common` and releases
that word. -/
theorem NCZ_transferslice_badtype_aborts :
    (exampleBadTypeEnv.NC4_inq_atomic_type 99).1 = -45 ∧
    NCZ_transferslice exampleBadTypeEnv 5 (exampleVar 10 10) true (fun _ => 0)
      (fun _ => 10) (fun _ => 1) 99 (exampleState [0, 0] [1, 2] 10) = Run.abort :=
  ⟨rfl, rfl⟩

/-! ## The walk advances its two odometers in lockstep -/

/-- The loop `chunkcount *= chunklens[r]` in `size64_t` leaves the product of the chunk
lengths modulo 2^64. -/
theorem chunkcount_eq_prod_mod (chunklens : Nat → Nat) (n : Nat) :
    (List.range n).foldl (fun c r => (c * chunklens r) % 2 ^ 64) 1 =
      (∏ r in Finset.range n, chunklens r) % 2 ^ 64 := by
  induction n with
  | zero => rfl
  | succ n ih =>
    rw [List.range_succ, List.foldl_append, ih, Finset.prod_range_succ]
    simp only [List.foldl_cons, List.foldl_nil]
    rw [Nat.mul_mod, Nat.mod_mod, ← Nat.mul_mod]

/-- The context and the slices that `NCZ_transferslice` builds for a variable that is
not scalar: the rank is the number of dimensions, the lengths are those of the variable,
and the chunk count is the product of the chunk lengths modulo 2^64. -/
theorem NCZ_transferslice_common_nonscalar (var : NC_VAR_INFO_T) (reading : Bool)
    (start count stride : Nat → Nat) (typesize : Nat) (fillvalue : Option Buffer)
    (hscalar : var.scalar = 0) :
    (NCZ_transferslice_common var reading start count stride typesize fillvalue).1.rank =
      var.ndims ∧
    (NCZ_transferslice_common var reading start count stride typesize fillvalue).1.dimlens =
      var.dimlen ∧
    (NCZ_transferslice_common var reading start count stride typesize fillvalue).1.chunklens =
      var.chunksizes ∧
    (NCZ_transferslice_common var reading start count stride typesize fillvalue).1.chunkcount =
      (∏ r in Finset.range var.ndims, var.chunksizes r) % 2 ^ 64 := by
  unfold NCZ_transferslice_common
  simp only [hscalar, Nat.add_zero, ne_eq, not_true_eq_false, if_false]
  exact ⟨trivial, trivial, trivial, chunkcount_eq_prod_mod var.chunksizes var.ndims⟩

/-- C21.  The fast path moves as many elements as the request selects.  For a variable
that is not scalar, when the slices that `NCZ_transferslice` builds pass `iswholevar` and
the product of the chunk lengths does not overflow 64 bits, the `chunkcount` it computed
is the product of the chunk lengths over all dimensions, equals the product of the
dimension lengths, and equals the product over the dimensions of `stop - start` of the
slices; and once `NCZ_projectslices` has succeeded, `NCZ_transfer` is its whole-variable
branch on a context holding this `chunkcount`, which is the count it hands to
`transfern`. -/
theorem NCZ_transferslice_wholevar_count {σ Odom : Type} (env : Env σ Odom) (fuel : Nat)
    (var : NC_VAR_INFO_T) (reading : Bool) (start count stride : Nat → Nat) (typesize : Nat)
    (fillvalue : Option Buffer) (st : State σ)
    (hscalar : var.scalar = 0)
    (hwhole : iswholevar
      (NCZ_transferslice_common var reading start count stride typesize fillvalue).1
      (NCZ_transferslice_common var reading start count stride typesize fillvalue).2 ≠ 0)
    (hfit : ∏ r in Finset.range var.ndims, var.chunksizes r < 2 ^ 64) :
    (NCZ_transferslice_common var reading start count stride typesize fillvalue).1.chunkcount =
      ∏ r in Finset.range var.ndims, var.chunksizes r ∧
    (NCZ_transferslice_common var reading start count stride typesize fillvalue).1.chunkcount =
      ∏ r in Finset.range var.ndims, var.dimlen r ∧
    (NCZ_transferslice_common var reading start count stride typesize fillvalue).1.chunkcount =
      ∏ r in Finset.range var.ndims,
        (((NCZ_transferslice_common var reading start count stride typesize fillvalue).2 r).stop -
          ((NCZ_transferslice_common var reading start count stride typesize fillvalue).2
            r).start) ∧
    ∀ (common : Common) (chunkodom : Odom),
      NCZ_projectslices env
        (NCZ_transferslice_common var reading start count stride typesize fillvalue).1.dimlens
        (NCZ_transferslice_common var reading start count stride typesize fillvalue).1.chunklens
        (NCZ_transferslice_common var reading start count stride typesize fillvalue).2
        (NCZ_transferslice_common var reading start count stride typesize fillvalue).1 =
          Run.ret (NC_NOERR, common, some chunkodom) →
      common.chunkcount = ∏ r in Finset.range var.ndims, var.chunksizes r ∧
      NCZ_transfer env fuel
        (NCZ_transferslice_common var reading start count stride typesize fillvalue).1
        (NCZ_transferslice_common var reading start count stride typesize fillvalue).2 st =
          NCZ_transfer_wholevar env common chunkodom st := by
  obtain ⟨hrank, hdimlens, hchunklens, hcount⟩ :=
    NCZ_transferslice_common_nonscalar var reading start count stride typesize fillvalue
      hscalar
  have hone : iswholevar
      (NCZ_transferslice_common var reading start count stride typesize fillvalue).1
      (NCZ_transferslice_common var reading start count stride typesize fillvalue).2 = 1 := by
    rcases iswholevar_zero_or_one
      (NCZ_transferslice_common var reading start count stride typesize fillvalue).1
      (NCZ_transferslice_common var reading start count stride typesize fillvalue).2 with h | h
    · exact absurd h hwhole
    · exact h
  have hw := (iswholevar_eq_one_iff _ _).1 hone
  unfold WholeVar at hw
  rw [hrank, hdimlens, hchunklens] at hw
  have hprod : (NCZ_transferslice_common var reading start count stride typesize
      fillvalue).1.chunkcount = ∏ r in Finset.range var.ndims, var.chunksizes r := by
    rw [hcount, Nat.mod_eq_of_lt hfit]
  refine ⟨hprod, ?_, ?_, ?_⟩
  · rw [hprod]
    refine (Finset.prod_congr rfl ?_).symm
    intro r hr
    exact (hw r (Finset.mem_range.1 hr)).2.2.2
  · rw [hprod]
    refine (Finset.prod_congr rfl ?_).symm
    intro r hr
    obtain ⟨h0, hstop, -, hlen⟩ := hw r (Finset.mem_range.1 hr)
    rw [h0, hstop, hlen, Nat.sub_zero]
  · intro common chunkodom hps
    obtain ⟨_, -, -, -, -, -, hcc, htransfer⟩ := NCZ_transfer_dispatch env fuel _ _ st common
      chunkodom hps
    refine ⟨by rw [hcc, hprod], ?_⟩
    rw [htransfer, if_pos hwhole]

/-- C21 at the variable of 3 by 4 elements stored as one chunk, requested whole: the
chunk count, the product of the dimension lengths and the number of elements the slices
select are all 12. -/
theorem NCZ_transferslice_wholevar_count_witness :
    (NCZ_transferslice_common exampleOneChunkVar true (fun _ => 0)
      (fun r => if r = 0 then 3 else 4) (fun _ => 1) 1 none).1.chunkcount = 12 ∧
    (∏ r in Finset.range exampleOneChunkVar.ndims, exampleOneChunkVar.dimlen r) = 12 ∧
    (NCZ_transferslice_common exampleOneChunkVar true (fun _ => 0)
      (fun r => if r = 0 then 3 else 4) (fun _ => 1) 1 none).1.chunkcount =
      ∏ r in Finset.range exampleOneChunkVar.ndims,
        (((NCZ_transferslice_common exampleOneChunkVar true (fun _ => 0)
            (fun r => if r = 0 then 3 else 4) (fun _ => 1) 1 none).2 r).stop -
          ((NCZ_transferslice_common exampleOneChunkVar true (fun _ => 0)
            (fun r => if r = 0 then 3 else 4) (fun _ => 1) 1 none).2 r).start) :=
  ⟨by decide, by decide,
    (NCZ_transferslice_wholevar_count (exampleEnv 0) 5 exampleOneChunkVar true (fun _ => 0)
      (fun r => if r = 0 then 3 else 4) (fun _ => 1) 1 none (exampleState [] [] 12)
      (by decide) (by decide) (by decide)).2.2.1⟩

end NCZ
